import Mathlib

/-!
# hoot: the room / broadcast engine and the session protocol

A shallow embedding of `chat/message.go`, `chat/room.go` and `chat/user.go`.

Modelling decisions

* Pointers.  A `*User` is a `UserRef`: either the package-level `serverUser` or a
  connected session, named by a number.  The sessions live in a heap
  `Nat → User`; `Message.Author` keeps the reference, so that a message renders
  under the name its author has when it is rendered, as in the source.
  The member map of a room holds sessions only: `serverUser` has no connection
  and is never handed to `Room.AddUser`.
* Maps.  `RoomManager.rooms` (a Go map) and `Room.users` (a `sync.Map`) are
  association lists without repeated keys (`GoMap`); `Range` visits the entries
  in list order.
* Connection.  `inbox` holds the lines that the client sent and that are not
  read yet, without their terminators, one character per byte; the only read
  error is end of stream, once it is empty.  `outbox` holds the payload of
  every `Send` call on the session, in call order; the control sequences that
  `Send` puts around it and the prompt marker are left out.  A connection may
  break after any number of writes: `failFrom = some k` says that the writes
  succeed until `k` calls of `Send` have been made on the session and fail
  from then on (a broken connection stays broken, and `bufio.Writer` keeps
  its first error); `none` says that it never breaks.  Writes also fail once
  the session has closed the connection; `connCloses` counts the calls of
  `conn.Close()`.
* Reader.  `bufio.Reader.ReadLine` hands out a view of its buffer, which the
  next read overwrites.  `User.readLine` copies the view of a first chunk only
  after a second `ReadLine`, so what it returns for a line that does not fit
  the buffer is made of the bytes that the second read left in the buffer.
  How many bytes beyond the ones it needs a read takes from the connection is
  decided by the network; `readAhead` lists these numbers, one for each
  second read, and a missing number is 0.  The terminator of a line is a line
  feed; the special case of a carriage return in front of it has no
  counterpart.
* Time.  `time.Now()` is an input `now`, kept as its `time.Stamp` rendering.
* Faults.  A Go panic is `Except.error`.
* Logging has no counterpart.  Operations run one at a time; sessions
  interleave at the grain of `Event`.  The one finer grain is the split of
  `Room.BroadCast` into the part under the lock `msgsMu` (`Room.appendLocked`)
  and the part after its release (`Room.rangeUnlocked`).
-/

namespace Hoot

/-! ## Go maps with string keys -/

/-- Lookup of a key in an association list. -/
def lookupKey {α : Type} (k : String) : List (String × α) → Option α
  | [] => none
  | (k', v) :: t => if k' = k then some v else lookupKey k t

/-- Assignment `m[k] = v`: replace the entry of `k` in place, or add one. -/
def storeKey {α : Type} (k : String) (v : α) : List (String × α) → List (String × α)
  | [] => [(k, v)]
  | (k', v') :: t => if k' = k then (k, v) :: t else (k', v') :: storeKey k v t

/-- Removal `delete(m, k)`. -/
def deleteKey {α : Type} (k : String) : List (String × α) → List (String × α)
  | [] => []
  | (k', v) :: t => if k' = k then deleteKey k t else (k', v) :: deleteKey k t

theorem storeKey_keys {α : Type} (k : String) (v : α) (l : List (String × α)) :
    (storeKey k v l).map Prod.fst =
      if k ∈ l.map Prod.fst then l.map Prod.fst else l.map Prod.fst ++ [k] := by
  induction l with
  | nil => simp [storeKey]
  | cons e t ih =>
    obtain ⟨k', v'⟩ := e
    by_cases hk : k' = k
    · subst hk; simp [storeKey]
    · have hk' : ¬ k = k' := fun h => hk h.symm
      simp only [storeKey, hk, if_false, List.map_cons, ih, List.mem_cons, hk', false_or]
      split <;> simp

theorem deleteKey_keys_sublist {α : Type} (k : String) (l : List (String × α)) :
    List.Sublist ((deleteKey k l).map Prod.fst) (l.map Prod.fst) := by
  induction l with
  | nil => simp [deleteKey]
  | cons e t ih =>
    obtain ⟨k', v'⟩ := e
    by_cases hk : k' = k
    · simp only [deleteKey, hk, if_true, List.map_cons]
      exact List.Sublist.cons _ (by simpa [hk] using ih)
    · simp only [deleteKey, hk, if_false, List.map_cons]
      exact List.Sublist.cons₂ _ ih

theorem storeKey_nodup {α : Type} (k : String) (v : α) (l : List (String × α))
    (h : (l.map Prod.fst).Nodup) : ((storeKey k v l).map Prod.fst).Nodup := by
  rw [storeKey_keys]
  split
  · exact h
  · rename_i hk
    rw [List.nodup_append]
    refine ⟨h, by simp, ?_⟩
    intro a ha hb
    simp only [List.mem_singleton] at hb
    subst hb
    exact hk ha

theorem deleteKey_nodup {α : Type} (k : String) (l : List (String × α))
    (h : (l.map Prod.fst).Nodup) : ((deleteKey k l).map Prod.fst).Nodup :=
  List.Nodup.sublist (deleteKey_keys_sublist k l) h

/-- A Go map with string keys: entries in iteration order, no key twice. -/
structure GoMap (α : Type) where
  entries : List (String × α)
  nodup : (entries.map Prod.fst).Nodup

theorem GoMap.ext {α : Type} (m1 m2 : GoMap α) (h : m1.entries = m2.entries) : m1 = m2 := by
  cases m1; cases m2; cases h; rfl

instance {α : Type} [DecidableEq α] : DecidableEq (GoMap α) := fun a b =>
  decidable_of_iff (a.entries = b.entries) ⟨GoMap.ext a b, fun e => e ▸ rfl⟩

namespace GoMap

/-- The empty map, `make(map[string]T)`. -/
def empty {α : Type} : GoMap α := ⟨[], List.nodup_nil⟩

/-- Lookup `v, ok := m[k]` (`sync.Map.Load`). -/
def Load {α : Type} (m : GoMap α) (k : String) : Option α := lookupKey k m.entries

/-- Assignment `m[k] = v` (`sync.Map.Store`). -/
def Store {α : Type} (m : GoMap α) (k : String) (v : α) : GoMap α :=
  ⟨storeKey k v m.entries, storeKey_nodup k v m.entries m.nodup⟩

/-- Removal `delete(m, k)` (`sync.Map.Delete`). -/
def Delete {α : Type} (m : GoMap α) (k : String) : GoMap α :=
  ⟨deleteKey k m.entries, deleteKey_nodup k m.entries m.nodup⟩

/-- The keys, in iteration order. -/
def keys {α : Type} (m : GoMap α) : List String := m.entries.map Prod.fst

end GoMap

/-! ## Data model -/

/-- An error value; `none : Option Error` is Go's `nil` error. -/
abbrev Error := String

/-- The error `io.EOF`. -/
def EOF : Error := "EOF"

/-- The error of a failed write to a connection. -/
def writeError : Error := "write failed"

/-- Runtime panics of the Go program. -/
inductive Fault
  | closeOfClosedChannel
  | indexOutOfRange
  deriving DecidableEq, Repr

/-- The struct `Filter` of message.go. -/
structure Filter where
  UserName : String
  deriving DecidableEq, Repr

/-- A `*User`: the package variable `serverUser`, or a connected session. -/
inductive UserRef
  | server
  | session (id : Nat)
  deriving DecidableEq, Repr

/-- The struct `Message` of message.go. -/
structure Message where
  Content : String
  Author : UserRef
  Time : String
  filters : List Filter
  deriving DecidableEq, Repr

/-- The struct `User` of user.go, with its connection made explicit. -/
structure User where
  Name : String
  CurrentRoom : String
  filters : List Filter
  inbox : List String
  readAhead : List Nat
  outbox : List String
  failFrom : Option Nat
  closed : Bool
  connCloses : Nat
  deriving DecidableEq, Repr

/-- The heap of sessions. -/
abbrev Heap := Nat → User

/-- Write through a session pointer. -/
def Heap.set (h : Heap) (u : Nat) (v : User) : Heap := fun j => if j = u then v else h j

/-- The struct `Room` of room.go. -/
structure Room where
  Name : String
  msgs : List Message
  users : GoMap Nat
  deriving DecidableEq

/-- The room manager (`rooms`) together with the sessions that point to it. -/
structure World where
  rooms : GoMap Room
  users : Heap

/-- The constant `DefaultRoom`. -/
def DefaultRoom : String := "lobby"

/-- The package variable `serverUser`: only its name is set. -/
def serverUser : User :=
  { Name := "server", CurrentRoom := "", filters := [], inbox := [], readAhead := [],
    outbox := [], failFrom := none, closed := false, connCloses := 0 }

/-- Dereference of a `*User`. -/
def deref (h : Heap) : UserRef → User
  | .server => serverUser
  | .session i => h i

/-! ## message.go -/

/-- The method `User.GetName`. -/
def User.GetName (h : Heap) (u : UserRef) : String := (deref h u).Name

/-- The constructor `NewMessage`. -/
def NewMessage (content : String) (author : UserRef) (now : String)
    (filters : List Filter) : Message :=
  { Content := content, Author := author, Time := now, filters := filters }

/-- The method `Message.String`: `"%s - %s: %s"` of time, author name, content. -/
def Message.String (h : Heap) (m : Message) : String :=
  m.Time ++ " - " ++ User.GetName h m.Author ++ ": " ++ m.Content

/-- The loop of `CanSend` over the recipient's filters: false as soon as one
names the author. -/
def rangeUserFilters (author : String) : List Filter → Bool
  | [] => true
  | f :: fs => if author = f.UserName then false else rangeUserFilters author fs

/-- The loop of `checkMessageFilters` over the message's filters: false as soon
as one names the recipient. -/
def rangeMessageFilters (name : String) : List Filter → Bool
  | [] => true
  | f :: fs => if name = f.UserName then false else rangeMessageFilters name fs

/-- The method `Message.checkMessageFilters`. -/
def Message.checkMessageFilters (h : Heap) (m : Message) (u : UserRef) : Bool :=
  rangeMessageFilters (User.GetName h u) m.filters

/-- The method `Message.CanSend`. -/
def Message.CanSend (h : Heap) (m : Message) (u : UserRef) : Bool :=
  if User.GetName h m.Author = User.GetName h u then false
  else if rangeUserFilters (User.GetName h m.Author) (deref h u).filters = false then false
  else m.checkMessageFilters h u

/-! ## user.go: writing to and reading from the connection -/

/-- Whether the next write to the session's connection fails: the session has
closed the connection, or the connection broke, which shows from the call of
`Send` with the number `failFrom` on.  The calls of `Send` made so far are the
entries of `outbox`, so a `Send` can turn the answer from false to true and
nothing turns it back. -/
def User.writeFails (u : User) : Bool :=
  decide (0 < u.connCloses) ||
    match u.failFrom with
    | none => false
    | some k => decide (k ≤ u.outbox.length)

/-- The number of calls of `Send` on the session up to and with the first one
that fails, counted from now; `none` when no write fails however many follow. -/
def User.sendsToFailure (u : User) : Option Nat :=
  if 0 < u.connCloses then some 1
  else
    match u.failFrom with
    | none => none
    | some k => some (k - u.outbox.length + 1)

/-- The first `n` entries of a list when a bound `n` is given, else all of it. -/
def upTo {α : Type} : Option Nat → List α → List α
  | none, l => l
  | some n, l => l.take n

/-- The method `User.drawPrompt`: writes the prompt marker and flushes. -/
def User.drawPrompt (h : Heap) (u : Nat) : Option Error :=
  if (h u).writeFails then some writeError else none

/-- The method `User.Send`: writes the framed text, then draws the prompt. -/
def User.Send (h : Heap) (u : Nat) (m : String) : Heap × Option Error :=
  (h.set u { h u with outbox := (h u).outbox ++ [m] }, User.drawPrompt h u)

/-- The size of the buffer of `bufio.NewReader`. -/
def bufSize : Nat := 4096

/-- The call `u.r.ReadLine()` of bufio: the pending line when it fits the
buffer with its terminator; else its first `bufSize` characters, with the
prefix flag set and the rest of the line left pending; `io.EOF` at the end of
the stream. -/
def ReadLine (h : Heap) (u : Nat) : Heap × String × Bool × Option Error :=
  match (h u).inbox with
  | [] => (h, "", false, some EOF)
  | l :: ls =>
    if l.length < bufSize then (h.set u { h u with inbox := ls }, l, false, none)
    else
      (h.set u { h u with inbox := String.mk (l.data.drop bufSize) :: ls },
        String.mk (l.data.take bufSize), true, none)

/-- The bytes that follow on a connection: the pending lines, each with its
terminator. -/
def streamOf : List String → List Char
  | [] => []
  | l :: ls => l.data ++ '\n' :: streamOf ls

/-- The number of bytes at the start of the buffer that the second `ReadLine`
of `User.readLine` has overwritten when it returns `suf`: what it needed (the
rest of the line with its terminator, or a full buffer) and `ahead` bytes
more, within the buffer and within the `avail` bytes that follow on the
connection. -/
def refilled (suf : String) (ahead avail : Nat) : Nat :=
  min (min (suf.length + 1 + ahead) bufSize) avail

/-- The method `User.readLine`: one `ReadLine`, and one more when the first
reports a prefix.  `byts` is a view of the buffer of the reader, and in the
prefix case the second `ReadLine` refills that buffer from its start before
`append` copies the view: the copy holds the bytes that followed on the
connection, as far as the refill went, and behind them the bytes of the first
chunk that the refill did not reach. -/
def User.readLine (h : Heap) (u : Nat) : Heap × String × Option Error :=
  match ReadLine h u with
  | (h1, byts, true, err) =>
    let following := streamOf (h1 u).inbox
    let ahead := (h1 u).readAhead.headD 0
    match ReadLine (h1.set u { h1 u with readAhead := (h1 u).readAhead.tail }) u with
    | (h2, _, _, some err2) => (h2, "", some err2)
    | (h2, suf, _, none) =>
      let w := refilled suf ahead following.length
      (h2, String.mk (following.take w ++ byts.data.drop w) ++ suf, err)
  | (h1, byts, false, err) => (h1, byts, err)

/-! ## room.go: Room -/

/-- The constructor `NewRoom`. -/
def NewRoom (name : String) : Room := { Name := name, msgs := [], users := GoMap.empty }

/-- The `Range` callback of `BroadCast`, over the entries of the member map. -/
def broadcastRange (msg : Message) : List (String × Nat) → Heap → Heap
  | [], h => h
  | (_, u) :: rest, h =>
    if User.GetName h (.session u) = User.GetName h msg.Author then
      broadcastRange msg rest h
    else if msg.CanSend h (.session u) = false then
      broadcastRange msg rest h
    else
      broadcastRange msg rest (User.Send h u (msg.String h)).1

/-- The method `Room.BroadCast`.  The variadic `filters` are not read. -/
def Room.BroadCast (h : Heap) (r : Room) (msg : Message) (_filters : List Filter) :
    Heap × Room :=
  let r1 : Room := { r with msgs := r.msgs ++ [msg] }
  (broadcastRange msg r1.users.entries h, r1)

/-- The loop of `catchup` over the history; stops at the first failed `Send`. -/
def catchupRange (u : Nat) : List Message → Heap → Heap × Option Error
  | [], h => (h, none)
  | msg :: rest, h =>
    if msg.CanSend h (.session u) = false then
      catchupRange u rest h
    else
      match User.Send h u (msg.String h) with
      | (h1, some err) =>
        (h1, some ("unable to send message to \"" ++ User.GetName h1 (.session u) ++ "\": " ++ err))
      | (h1, none) => catchupRange u rest h1

/-- The method `Room.catchup`. -/
def Room.catchup (h : Heap) (r : Room) (u : Nat) : Heap × Option Error :=
  catchupRange u r.msgs h

/-- The method `Room.AddUser`. -/
def Room.AddUser (h : Heap) (r : Room) (u : Nat) (now : String) : Heap × Room :=
  match r.users.Load (User.GetName h (.session u)) with
  | some _ => (h, r)
  | none =>
    let name := User.GetName h (.session u)
    let r1 : Room := { r with users := r.users.Store name u }
    let msg := NewMessage (name ++ " joined.") .server now [{ UserName := name }]
    let b := Room.BroadCast h r1 msg []
    ((Room.catchup b.1 b.2 u).1, b.2)

/-- The method `Room.RemoveUser`. -/
def Room.RemoveUser (h : Heap) (r : Room) (u : Nat) (now : String) : Heap × Room :=
  let name := User.GetName h (.session u)
  let r1 : Room := { r with users := r.users.Delete name }
  Room.BroadCast h r1 (NewMessage (name ++ " left.") .server now []) []

/-! ## room.go: RoomManager -/

/-- The error of `RoomManager.JoinRoom` and `RoomManager.Broadcast`. -/
def roomNotFound (name : String) : Error := "room \"" ++ name ++ "\" does not exist"

/-- The method `RoomManager.CreateRoom`. -/
def RoomManager.CreateRoom (w : World) (name : String) : World :=
  match w.rooms.Load name with
  | some _ => w
  | none => { w with rooms := w.rooms.Store name (NewRoom name) }

/-- The method `RoomManager.DeleteRoom`. -/
def RoomManager.DeleteRoom (w : World) (name : String) : World :=
  { w with rooms := w.rooms.Delete name }

/-- The method `RoomManager.JoinRoom`. -/
def RoomManager.JoinRoom (w : World) (u : Nat) (name : String) (now : String) :
    World × Option Error :=
  match w.rooms.Load name with
  | none => (w, some (roomNotFound name))
  | some r =>
    let a := Room.AddUser w.users r u now
    ({ rooms := w.rooms.Store name a.2, users := a.1 }, none)

/-- The method `RoomManager.LeaveRoom`. -/
def RoomManager.LeaveRoom (w : World) (u : Nat) (name : String) (now : String) : World :=
  match w.rooms.Load name with
  | none => w
  | some r =>
    let a := Room.RemoveUser w.users r u now
    { rooms := w.rooms.Store name a.2, users := a.1 }

/-- The method `RoomManager.Broadcast`. -/
def RoomManager.Broadcast (w : World) (name : String) (msg : Message) :
    World × Option Error :=
  match w.rooms.Load name with
  | none => (w, some (roomNotFound name))
  | some r =>
    let b := Room.BroadCast w.users r msg []
    ({ rooms := w.rooms.Store name b.2, users := b.1 }, none)

/-- The method `RoomManager.GetRooms`. -/
def RoomManager.GetRooms (w : World) : GoMap Room := w.rooms

/-- The method `RoomManager.RoomExists`. -/
def RoomManager.RoomExists (w : World) (name : String) : Bool :=
  (w.rooms.Load name).isSome

/-- The constructor `NewRoomManager`, for a given heap of sessions. -/
def NewRoomManager (users : Heap) : World :=
  RoomManager.CreateRoom { rooms := GoMap.empty, users := users } DefaultRoom

/-! ## user.go: the session -/

/-- The constant `HelpMessage`. -/
def HelpMessage : String :=
  "\n/name <name>\t- Changes name\n/room [name]\t- Changes room to given room and prompts to create if\n\t\t\tit doesn't exist. if no option is given will return the\n\t\t\tcurrent room\n\n/rooms\t\t- Will return a list of rooms\n/quit\t\t- will disconnect from chat server\n"

/-- The pieces of a text between its spaces, never an empty list. -/
def splitOnSpace : List Char → List (List Char)
  | [] => [[]]
  | c :: cs =>
    match splitOnSpace cs with
    | [] => [[c]]
    | p :: ps => if c = ' ' then [] :: p :: ps else (c :: p) :: ps

/-- The call `strings.Split(s, " ")`. -/
def Split (s : String) : List String := (splitOnSpace s.data).map String.mk

/-- The call `strings.ContainsAny(s, chars)`. -/
def ContainsAny (s chars : String) : Bool := s.data.any (fun c => chars.data.contains c)

/-- The method `User.SetName`. -/
def User.SetName (w : World) (u : Nat) (name : String) (now : String) :
    World × Option Error :=
  let w1 : World := { w with users := w.users.set u { w.users u with Name := name } }
  let w2 := (RoomManager.Broadcast w1 (w1.users u).CurrentRoom
    (NewMessage ("changed name to " ++ name) (.session u) now [])).1
  let s := User.Send w2.users u "name changed."
  ({ w2 with users := s.1 }, s.2)

/-- The method `User.JoinRoom`. -/
def User.JoinRoom (w : World) (u : Nat) (name : String) (now : String) :
    World × Option Error :=
  let w1 := if (w.users u).CurrentRoom = "" then w
    else RoomManager.LeaveRoom w u (w.users u).CurrentRoom now
  let w2 : World := { w1 with users := w1.users.set u { w1.users u with CurrentRoom := name } }
  RoomManager.JoinRoom w2 u name now

/-- The method `User.createRoom`: asks, reads the answer, creates the room
unless the answer is empty or holds an `n` or `N`. -/
def User.createRoom (w : World) (u : Nat) (name : String) : World × Option Error :=
  match User.Send w.users u
      ("Room " ++ name ++ " does not exist, would you like to create it? [y/N]\n") with
  | (h1, some err) => ({ w with users := h1 }, some err)
  | (h1, none) =>
    let rd := User.readLine h1 u
    let w2 : World := { w with users := rd.1 }
    if rd.2.1 = "" ∨ ContainsAny rd.2.1 "nN" = true then (w2, none)
    else (RoomManager.CreateRoom w2 name, none)

/-- The method `User.Close`: closes `closeCh` (a panic when it is closed
already), leaves the current room, closes the connection. -/
def User.Close (w : World) (u : Nat) (now : String) : Except Fault (World × Option Error) :=
  if (w.users u).closed = true then .error .closeOfClosedChannel
  else
    let w1 : World := { w with users := w.users.set u { w.users u with closed := true } }
    let w2 := RoomManager.LeaveRoom w1 u (w1.users u).CurrentRoom now
    let err : Option Error :=
      if 0 < (w2.users u).connCloses then some "use of closed network connection" else none
    let me : User := { w2.users u with connCloses := (w2.users u).connCloses + 1 }
    .ok ({ w2 with users := w2.users.set u me }, err)

/-- The loop of the `rooms` command: one `Send` per room name, until one fails. -/
def sendEach (u : Nat) : List String → Heap → Heap × Option Error
  | [], h => (h, none)
  | name :: rest, h =>
    match User.Send h u name with
    | (h1, some err) => (h1, some err)
    | (h1, none) => sendEach u rest h1

/-- The method `User.parseCommand`.  `parts[1]` of the `name` case is read
before any length check. -/
def User.parseCommand (w : World) (u : Nat) (command : String) (now : String) :
    Except Fault (World × Option Error) :=
  match Split command with
  | [] => .error .indexOutOfRange
  | action :: args =>
    if action = "name" then
      match args with
      | [] => .error .indexOutOfRange
      | p1 :: _ => .ok (User.SetName w u p1 now)
    else if action = "ignore" then
      match args with
      | [] => .ok (w, some "expected <name> argument after action")
      | p1 :: _ =>
        let me : User := { w.users u with filters := (w.users u).filters ++ [{ UserName := p1 }] }
        .ok ({ w with users := w.users.set u me }, none)
    else if action = "room" then
      match args with
      | [] =>
        let s := User.Send w.users u
          ("you are currently in \"" ++ (w.users u).CurrentRoom ++ "\"")
        .ok ({ w with users := s.1 }, s.2)
      | p1 :: _ =>
        let c := if RoomManager.RoomExists w p1 = false then User.createRoom w u p1 else (w, none)
        match c with
        | (w1, some err) => .ok (w1, some err)
        | (w1, none) => .ok (User.JoinRoom w1 u p1 now)
    else if action = "rooms" then
      let s := sendEach u (RoomManager.GetRooms w).keys w.users
      .ok ({ w with users := s.1 }, s.2)
    else if action = "quit" then
      User.Close w u now
    else if action = "help" then
      let s := User.Send w.users u HelpMessage
      .ok ({ w with users := s.1 }, s.2)
    else .ok (w, none)

/-- One turn of the loop of `User.handle`; the flag says whether the loop goes on. -/
def User.handleStep (w : World) (u : Nat) (now : String) : Except Fault (World × Bool) :=
  if (w.users u).closed = true then .ok (w, false)
  else
    match User.readLine w.users u with
    | (h1, _, some _) =>
      match User.Close { w with users := h1 } u now with
      | .error f => .error f
      | .ok (w2, _) => .ok (w2, false)
    | (h1, content, none) =>
      let w1 : World := { w with users := h1 }
      if content = "" then .ok (w1, true)
      else
        match content.data with
        | '/' :: cs =>
          match User.parseCommand w1 u (String.mk cs) now with
          | .error f => .error f
          | .ok (w2, _) => .ok (w2, true)
        | _ =>
          .ok ((RoomManager.Broadcast w1 (w1.users u).CurrentRoom
                  (NewMessage content (.session u) now [])).1, true)

/-- The method `User.preamble`. -/
def User.preamble (w : World) (u : Nat) (now : String) : World × Option Error :=
  match User.Send w.users u "Please enter your name.\n" with
  | (h1, some err) => ({ w with users := h1 }, some ("unable to send to client: " ++ err))
  | (h1, none) =>
    match User.readLine h1 u with
    | (h2, _, some err) => ({ w with users := h2 }, some ("unable to read from client: " ++ err))
    | (h2, name, none) => ((User.SetName { w with users := h2 } u name now).1, none)

/-- The method `User.setup`. -/
def User.setup (w : World) (u : Nat) : World × Option Error :=
  match User.Send w.users u "\x1b[H\x1b[2J\r\x1b[1;25r" with
  | (h1, some err) => ({ w with users := h1 }, some ("unable to setup client: " ++ err))
  | (h1, none) => ({ w with users := h1 }, User.drawPrompt h1 u)

/-- What the network decides for a connection: the lines that it will deliver,
how far the second reads of long lines run ahead, and after how many calls of
`Send` it breaks, if ever. -/
structure Conn where
  inbox : List String
  readAhead : List Nat
  failFrom : Option Nat
  deriving DecidableEq, Repr

/-- A connection that delivers `inbox`, never breaks, and whose second reads
take no more than they need. -/
def Conn.sound (inbox : List String) : Conn :=
  { inbox := inbox, readAhead := [], failFrom := none }

/-- The constructor `NewUser`, without the start of the loop: the session `u`
is allocated for the connection `conn`. -/
def NewUser (w : World) (u : Nat) (conn : Conn) (now : String) : World :=
  let fresh : User :=
    { Name := "", CurrentRoom := "", filters := [], inbox := conn.inbox,
      readAhead := conn.readAhead, outbox := [], failFrom := conn.failFrom,
      closed := false, connCloses := 0 }
  let w0 : World := { w with users := w.users.set u fresh }
  (User.setup (User.preamble w0 u now).1 u).1

/-! ## Auxiliary notions for the statements -/

/-- Two heaps whose sessions have the same names and the same ignore lists. -/
def SameIdentity (h h1 : Heap) : Prop :=
  ∀ j, (h1 j).Name = (h j).Name ∧ (h1 j).filters = (h j).filters

/-- The session record `v` with its outbox replaced. -/
def User.withOutbox (v : User) (o : List String) : User := { v with outbox := o }

/-- The number of names under which the session `j` is entered in a member map. -/
def holders (l : List (String × Nat)) (j : Nat) : Nat := l.countP (fun e => decide (e.2 = j))

/-! ## Sample states -/

/-- A session with an open, working connection and nothing read or written. -/
def exUser (name room : String) : User :=
  { Name := name, CurrentRoom := room, filters := [], inbox := [], readAhead := [],
    outbox := [], failFrom := none, closed := false, connCloses := 0 }

/-- Three sessions: 1 is alice, 2 is bob, 3 is carol, all with `lobby` as current room. -/
def exHeap : Heap := fun i =>
  if i = 1 then exUser "alice" "lobby"
  else if i = 2 then exUser "bob" "lobby"
  else if i = 3 then exUser "carol" "lobby"
  else exUser "" ""

/-- The room `lobby` with alice, bob and carol as members and an empty history. -/
def exRoom : Room :=
  { Name := "lobby", msgs := [],
    users := ⟨[("alice", 1), ("bob", 2), ("carol", 3)], by decide⟩ }

/-- The world with the single room `exRoom` and the sessions of `exHeap`. -/
def exWorld : World := { rooms := ⟨[("lobby", exRoom)], by decide⟩, users := exHeap }

/-- The sample heap with a fourth session, dave, whose connection rejects every
write. -/
def exHeapFail : Heap := fun i =>
  if i = 4 then { exUser "dave" "" with failFrom := some 0 } else exHeap i

/-- The sample lobby after alice said `one` and bob said `two`. -/
def exRoomTalk : Room :=
  { exRoom with msgs := [NewMessage "one" (.session 1) "t1" [], NewMessage "two" (.session 2) "t2" []] }

/-- The sample heap with a fourth session, dave, whose connection breaks after
one write. -/
def exHeapBreak : Heap := fun i =>
  if i = 4 then { exUser "dave" "" with failFrom := some 1 } else exHeap i

/-- The sample lobby after alice said `one`, bob said `two` and carol said `three`. -/
def exRoomTalk3 : Room :=
  { exRoom with msgs := [NewMessage "one" (.session 1) "t1" [], NewMessage "two" (.session 2) "t2" [], NewMessage "three" (.session 3) "t3" []] }

/-- The notice that `Room.AddUser` builds for the session `u`. -/
def joinNotice (h : Heap) (u : Nat) (now : String) : Message :=
  NewMessage (User.GetName h (.session u) ++ " joined.") .server now
    [{ UserName := User.GetName h (.session u) }]

/-- The notice that `Room.RemoveUser` builds for the session `u`. -/
def leftNotice (h : Heap) (u : Nat) (now : String) : Message :=
  NewMessage (User.GetName h (.session u) ++ " left.") .server now []

/-- Two heaps whose sessions differ in their outboxes only. -/
def OutboxOnly (h h1 : Heap) : Prop := ∀ j, h1 j = (h j).withOutbox (h1 j).outbox

/-- The sample heap with a fourth session, dave, who is in no room. -/
def exHeapDave : Heap := exHeap.set 4 (exUser "dave" "")

/-- The sample world with dave connected. -/
def exWorldDave : World := { exWorld with users := exHeapDave }

/-- The sample heap with a fifth session, a second bob, whose current room is
`den`, and with the answer `y` pending on the connection of the first bob. -/
def exHeap2 : Heap :=
  (exHeap.set 5 (exUser "bob" "den")).set 2 { exUser "bob" "lobby" with inbox := ["y"] }

/-- The room `den` with the second bob as its only member. -/
def exRoomDen : Room := { Name := "den", msgs := [], users := ⟨[("bob", 5)], by decide⟩ }

/-- The world with the rooms `lobby` and `den` and the sessions of `exHeap2`. -/
def exWorld2 : World :=
  { rooms := ⟨[("lobby", exRoom), ("den", exRoomDen)], by decide⟩, users := exHeap2 }

/-- The state in which `User.JoinRoom` calls `RoomManager.JoinRoom`: the
previous room is left and `CurrentRoom` is set. -/
def leftAndRetargeted (w : World) (u : Nat) (name : String) (now : String) : World :=
  let w1 := if (w.users u).CurrentRoom = "" then w
    else RoomManager.LeaveRoom w u (w.users u).CurrentRoom now
  { w1 with users := w1.users.set u { w1.users u with CurrentRoom := name } }

/-- A line of 8193 characters, one more than twice the buffer of the reader. -/
def longLine : String := String.mk (List.replicate 8193 'a')

/-- The sample world with `longLine` pending on bob's connection. -/
def exWorldLong : World :=
  { exWorld with users := exHeap.set 2 { exUser "bob" "lobby" with inbox := [longLine] } }

/-- The sample world with the line `hello` pending on bob's connection. -/
def exWorldHello : World :=
  { exWorld with users := exHeap.set 2 { exUser "bob" "lobby" with inbox := ["hello"] } }

/-- The sample world with a line of 4096 characters `a`, as long as the buffer
of the reader, pending on bob's connection. -/
def exWorldFull : World :=
  { exWorld with users := exHeap.set 2 { exUser "bob" "lobby" with inbox := [String.mk (List.replicate 4096 'a')] } }

/-! ## Session events -/

/-- What the sessions do to the shared state, one event at a time: `connect` is
`NewUser` for an accepted connection, `joinDefault` is the call
`user.JoinRoom(DefaultRoom)` of the server that follows it, `turn` is one turn
of the loop of `User.handle` (an empty line, a command, a message, or the end
of the stream). -/
inductive Event
  | connect (u : Nat) (conn : Conn) (now : String)
  | joinDefault (u : Nat) (now : String)
  | turn (u : Nat) (now : String)

/-- The effect of one event; a panic ends the run. -/
def Event.apply (w : World) : Event → Except Fault World
  | .connect u conn now => .ok (NewUser w u conn now)
  | .joinDefault u now => .ok (User.JoinRoom w u DefaultRoom now).1
  | .turn u now =>
    match User.handleStep w u now with
    | .ok (w1, _) => .ok w1
    | .error f => .error f

/-- The effect of a sequence of events, in any interleaving of the sessions. -/
def runEvents (w : World) : List Event → Except Fault World
  | [] => .ok w
  | e :: es =>
    match e.apply w with
    | .ok w1 => runEvents w1 es
    | .error f => .error f

/-- A heap on which no session is connected yet. -/
def noSessions : Heap := fun _ => exUser "" ""

/-- The directory `b` has every room name that the directory `a` has. -/
def RoomsKept (a b : GoMap Room) : Prop :=
  ∀ k, (a.Load k).isSome = true → (b.Load k).isSome = true

/-- The directory after a call that may panic has every room it had before. -/
def KeptBy {α : Type} (a : GoMap Room) (x : Except Fault (World × α)) : Prop :=
  match x with
  | .ok p => RoomsKept a p.1.rooms
  | .error _ => True

/-! ## The two parts of a broadcast -/

/-- The part of `Room.BroadCast` that runs under the lock `msgsMu`: the append
to the history. -/
def Room.appendLocked (r : Room) (msg : Message) : Room := { r with msgs := r.msgs ++ [msg] }

/-- The part of `Room.BroadCast` that runs after the lock is released: the
`Range` over the member map. -/
def Room.rangeUnlocked (h : Heap) (r : Room) (msg : Message) : Heap :=
  broadcastRange msg r.users.entries h

/-- Broadcasts that do not overlap: each one runs to its end before the next
one starts. -/
def broadCastAll (h : Heap) (r : Room) : List Message → Heap × Room
  | [] => (h, r)
  | m :: ms => broadCastAll (Room.BroadCast h r m []).1 (Room.BroadCast h r m []).2 ms

/-- What one broadcast of `m` sends to the session `j`, by `Room.BroadCast`. -/
def sentTo (h : Heap) (r : Room) (j : Nat) (m : Message) : List String :=
  List.replicate (if m.CanSend h (.session j) = true then holders r.users.entries j else 0)
    (m.String h)

/-- The sample lobby and its sessions after alice said `one`. -/
def exSaid : Heap × Room :=
  Room.BroadCast exHeap exRoom (NewMessage "one" (.session 1) "t1" []) []

/-- The state `exSaid` after carol left the room. -/
def exLeft : Heap × Room := Room.RemoveUser exSaid.1 exSaid.2 3 "t2"

/-! # Lemmas and theorems -/

/-! ## Lemmas on maps -/

theorem lookupKey_storeKey {α : Type} (k k2 : String) (v : α) (l : List (String × α)) :
    lookupKey k2 (storeKey k v l) = if k2 = k then some v else lookupKey k2 l := by
  induction l with
  | nil =>
    by_cases h : k = k2
    · simp [storeKey, lookupKey, h]
    · have h2 : ¬ k2 = k := fun e => h e.symm
      simp [storeKey, lookupKey, h, h2]
  | cons e t ih =>
    obtain ⟨k1, v1⟩ := e
    by_cases h1 : k1 = k
    · subst h1
      by_cases h2 : k1 = k2
      · simp [storeKey, lookupKey, h2]
      · have h3 : ¬ k2 = k1 := fun e => h2 e.symm
        simp [storeKey, lookupKey, h2, h3]
    · by_cases h2 : k1 = k2
      · subst h2
        simp [storeKey, lookupKey, h1]
      · simp [storeKey, lookupKey, h1, h2, ih]

theorem lookupKey_deleteKey {α : Type} (k k2 : String) (l : List (String × α)) :
    lookupKey k2 (deleteKey k l) = if k2 = k then none else lookupKey k2 l := by
  induction l with
  | nil => simp [deleteKey, lookupKey]
  | cons e t ih =>
    obtain ⟨k1, v1⟩ := e
    by_cases h1 : k1 = k
    · subst h1
      by_cases h2 : k1 = k2
      · subst h2
        simp [deleteKey, ih]
      · have h3 : ¬ k2 = k1 := fun e => h2 e.symm
        simp [deleteKey, lookupKey, h2, h3, ih]
    · by_cases h2 : k1 = k2
      · subst h2
        simp [deleteKey, lookupKey, h1]
      · simp [deleteKey, lookupKey, h1, h2, ih]

theorem lookupKey_eq_none_iff {α : Type} (k : String) (l : List (String × α)) :
    lookupKey k l = none ↔ k ∉ l.map Prod.fst := by
  induction l with
  | nil => simp [lookupKey]
  | cons e t ih =>
    obtain ⟨k1, v1⟩ := e
    by_cases h1 : k1 = k
    · simp [lookupKey, h1]
    · have h3 : ¬ k = k1 := fun e => h1 e.symm
      simp only [lookupKey, h1, if_false, ih, List.map_cons, List.mem_cons, h3, false_or]

theorem lookupKey_mem {α : Type} (k : String) (v : α) (l : List (String × α))
    (h : lookupKey k l = some v) : (k, v) ∈ l := by
  induction l with
  | nil => simp [lookupKey] at h
  | cons e t ih =>
    obtain ⟨k1, v1⟩ := e
    by_cases h1 : k1 = k
    · simp [lookupKey, h1] at h
      simp [h1, h]
    · simp only [lookupKey, h1, if_false] at h
      exact List.mem_cons_of_mem _ (ih h)

theorem mem_lookupKey {α : Type} (k : String) (v : α) (l : List (String × α))
    (hn : (l.map Prod.fst).Nodup) (h : (k, v) ∈ l) : lookupKey k l = some v := by
  induction l with
  | nil => simp at h
  | cons e t ih =>
    obtain ⟨k1, v1⟩ := e
    simp only [List.map_cons, List.nodup_cons] at hn
    rcases List.mem_cons.1 h with h | h
    · cases h
      simp [lookupKey]
    · have hk : k ∈ t.map Prod.fst := List.mem_map.2 ⟨(k, v), h, rfl⟩
      have h1 : ¬ k1 = k := fun e => hn.1 (e ▸ hk)
      simp only [lookupKey, h1, if_false]
      exact ih hn.2 h

theorem GoMap.Load_Store {α : Type} (m : GoMap α) (k k2 : String) (v : α) :
    (m.Store k v).Load k2 = if k2 = k then some v else m.Load k2 :=
  lookupKey_storeKey k k2 v m.entries

theorem GoMap.Load_Delete {α : Type} (m : GoMap α) (k k2 : String) :
    (m.Delete k).Load k2 = if k2 = k then none else m.Load k2 :=
  lookupKey_deleteKey k k2 m.entries


/-! ## Lemmas on the heap and on `Send` -/

theorem SameIdentity.refl (h : Heap) : SameIdentity h h := fun _ => ⟨rfl, rfl⟩

theorem SameIdentity.trans {h h1 h2 : Heap} (a : SameIdentity h h1) (b : SameIdentity h1 h2) :
    SameIdentity h h2 :=
  fun j => ⟨(b j).1.trans (a j).1, (b j).2.trans (a j).2⟩

theorem SameIdentity.GetName {h h1 : Heap} (a : SameIdentity h h1) (r : UserRef) :
    User.GetName h1 r = User.GetName h r := by
  cases r with
  | server => rfl
  | session i => exact (a i).1

theorem SameIdentity.filters {h h1 : Heap} (a : SameIdentity h h1) (r : UserRef) :
    (deref h1 r).filters = (deref h r).filters := by
  cases r with
  | server => rfl
  | session i => exact (a i).2

theorem SameIdentity.CanSend {h h1 : Heap} (a : SameIdentity h h1) (m : Message) (r : UserRef) :
    m.CanSend h1 r = m.CanSend h r := by
  simp only [Message.CanSend, Message.checkMessageFilters, a.GetName, a.filters]

theorem SameIdentity.String {h h1 : Heap} (a : SameIdentity h h1) (m : Message) :
    m.String h1 = m.String h := by
  simp only [Message.String, a.GetName]

theorem Heap.set_same (h : Heap) (u : Nat) (v : User) : h.set u v u = v := by
  simp [Heap.set]

theorem Heap.set_other (h : Heap) (u j : Nat) (v : User) (hj : j ≠ u) : h.set u v j = h j := by
  simp [Heap.set, hj]

theorem Send_apply (h : Heap) (u j : Nat) (s : String) :
    (User.Send h u s).1 j =
      if j = u then { h u with outbox := (h u).outbox ++ [s] } else h j := rfl

theorem Send_sameIdentity (h : Heap) (u : Nat) (s : String) :
    SameIdentity h (User.Send h u s).1 := by
  intro j
  rw [Send_apply]
  by_cases hj : j = u
  · subst hj; simp
  · simp [hj]

theorem Send_error (h : Heap) (u : Nat) (s : String) :
    (User.Send h u s).2 = if (h u).writeFails = true then some writeError else none := rfl

/-! ## Lemmas on the visibility predicate -/

theorem rangeUserFilters_eq_true (a : String) (fs : List Filter) :
    rangeUserFilters a fs = true ↔ ({ UserName := a } : Filter) ∉ fs := by
  induction fs with
  | nil => simp [rangeUserFilters]
  | cons f t ih =>
    obtain ⟨n⟩ := f
    by_cases hn : a = n
    · simp [rangeUserFilters, hn]
    · simp [rangeUserFilters, hn, ih]

theorem rangeMessageFilters_eq_true (a : String) (fs : List Filter) :
    rangeMessageFilters a fs = true ↔ ({ UserName := a } : Filter) ∉ fs := by
  induction fs with
  | nil => simp [rangeMessageFilters]
  | cons f t ih =>
    obtain ⟨n⟩ := f
    by_cases hn : a = n
    · simp [rangeMessageFilters, hn]
    · simp [rangeMessageFilters, hn, ih]

theorem CanSend_eq_true_iff (h : Heap) (m : Message) (u : UserRef) :
    m.CanSend h u = true ↔
      User.GetName h u ≠ User.GetName h m.Author ∧
      ({ UserName := User.GetName h m.Author } : Filter) ∉ (deref h u).filters ∧
      ({ UserName := User.GetName h u } : Filter) ∉ m.filters := by
  unfold Message.CanSend Message.checkMessageFilters
  by_cases h1 : User.GetName h m.Author = User.GetName h u
  · simp [h1]
  · have h1b : ¬ User.GetName h u = User.GetName h m.Author := fun e => h1 e.symm
    by_cases h2 : rangeUserFilters (User.GetName h m.Author) (deref h u).filters = false
    · have : ¬ rangeUserFilters (User.GetName h m.Author) (deref h u).filters = true := by
        simp [h2]
      rw [rangeUserFilters_eq_true] at this
      simp only [h1, h2, if_true, if_false]
      constructor
      · intro hf; cases hf
      · intro hf; exact absurd hf.2.1 this
    · have h3 : rangeUserFilters (User.GetName h m.Author) (deref h u).filters = true := by
        simpa using h2
      rw [if_neg h1, if_neg h2, rangeMessageFilters_eq_true]
      rw [rangeUserFilters_eq_true] at h3
      exact ⟨fun hf => ⟨h1b, h3, hf⟩, fun hf => hf.2.2⟩

theorem CanSend_false_of_name (h : Heap) (m : Message) (u : UserRef)
    (hn : User.GetName h u = User.GetName h m.Author) : m.CanSend h u = false := by
  simp [Message.CanSend, hn]

/-! ## Lemmas on `BroadCast` -/

theorem User.withOutbox_self (v : User) : v.withOutbox v.outbox = v := rfl

theorem holders_cons (k : String) (u j : Nat) (l : List (String × Nat)) :
    holders ((k, u) :: l) j = holders l j + if u = j then 1 else 0 := by
  simp [holders, List.countP_cons]

theorem broadcastRange_sameIdentity (msg : Message) (l : List (String × Nat)) (h : Heap) :
    SameIdentity h (broadcastRange msg l h) := by
  induction l generalizing h with
  | nil => exact SameIdentity.refl h
  | cons e t ih =>
    obtain ⟨k, u⟩ := e
    unfold broadcastRange
    split
    · exact ih h
    · split
      · exact ih h
      · exact (Send_sameIdentity h u _).trans (ih _)

theorem broadcastRange_apply (msg : Message) (l : List (String × Nat)) (h : Heap) (j : Nat) :
    broadcastRange msg l h j =
      (h j).withOutbox ((h j).outbox ++ List.replicate
          (if msg.CanSend h (.session j) = true then holders l j else 0) (msg.String h)) := by
  induction l generalizing h with
  | nil => simp [broadcastRange, holders, User.withOutbox]
  | cons e t ih =>
    obtain ⟨k, u⟩ := e
    unfold broadcastRange
    by_cases h1 : User.GetName h (.session u) = User.GetName h msg.Author
    · have hc := CanSend_false_of_name h msg (.session u) h1
      rw [if_pos h1, ih h, holders_cons]
      by_cases hj : u = j
      · subst hj; simp [hc]
      · simp [hj]
    · rw [if_neg h1]
      by_cases h2 : msg.CanSend h (.session u) = false
      · rw [if_pos h2, ih h, holders_cons]
        by_cases hj : u = j
        · subst hj; simp [h2]
        · simp [hj]
      · have h3 : msg.CanSend h (.session u) = true := by simpa using h2
        rw [if_neg h2, ih, (Send_sameIdentity h u _).CanSend, (Send_sameIdentity h u _).String,
          Send_apply, holders_cons]
        by_cases hj : u = j
        · subst hj
          simp [h3, List.replicate_succ, User.withOutbox]
        · have hj2 : ¬ j = u := fun e => hj e.symm
          simp [hj, hj2]

theorem holders_eq_count (l : List (String × Nat)) (j : Nat) :
    holders l j = (l.map Prod.snd).count j := by
  induction l with
  | nil => rfl
  | cons e t ih =>
    obtain ⟨k, u⟩ := e
    rw [holders_cons, ih, List.map_cons, List.count_cons]
    by_cases hj : u = j <;> simp [hj]

theorem mem_values_iff_Load (m : GoMap Nat) (j : Nat) :
    j ∈ m.entries.map Prod.snd ↔ ∃ k, m.Load k = some j := by
  constructor
  · intro hj
    obtain ⟨⟨k, v⟩, hm, hv⟩ := List.mem_map.1 hj
    simp only at hv
    subst hv
    exact ⟨k, mem_lookupKey k v m.entries m.nodup hm⟩
  · rintro ⟨k, hk⟩
    exact List.mem_map.2 ⟨(k, j), lookupKey_mem k j m.entries hk, rfl⟩

theorem BroadCast_apply (h : Heap) (r : Room) (m : Message) (fs : List Filter) (j : Nat) :
    (Room.BroadCast h r m fs).1 j = (h j).withOutbox ((h j).outbox ++ List.replicate
      (if m.CanSend h (.session j) = true then holders r.users.entries j else 0) (m.String h)) :=
  broadcastRange_apply m r.users.entries h j

theorem BroadCast_room (h : Heap) (r : Room) (m : Message) (fs : List Filter) :
    (Room.BroadCast h r m fs).2 = { r with msgs := r.msgs ++ [m] } := rfl

theorem BroadCast_sameIdentity (h : Heap) (r : Room) (m : Message) (fs : List Filter) :
    SameIdentity h (Room.BroadCast h r m fs).1 :=
  broadcastRange_sameIdentity m r.users.entries h

/-! ## The claims -/

/-- C1: `Message.CanSend` accepts a recipient exactly when the recipient's name
differs from the author's name, the author's name is not in the recipient's
ignore list, and the recipient's name is not in the message's exclusion set. -/
theorem canSend_iff_three_conditions (h : Heap) (m : Message) (u : UserRef) :
    m.CanSend h u = true ↔
      User.GetName h u ≠ User.GetName h m.Author ∧
      ({ UserName := User.GetName h m.Author } : Filter) ∉ (deref h u).filters ∧
      ({ UserName := User.GetName h u } : Filter) ∉ m.filters :=
  CanSend_eq_true_iff h m u

/-- The behaviour of `Room.BroadCast` on every state (the part of C2 that
holds): it appends the message as the last element of the history
and leaves the member map alone; it sends the rendered text once for every
entry of the member map whose session the visibility predicate accepts, and
sends nothing else: the outbox of a session grows by one copy per entry that
holds it when the predicate accepts it, and not at all otherwise.  A session
whose name is the author's name gets nothing.  When no session is entered under
two names, an accepted member gets the text exactly once. -/
theorem broadCast_appends_and_delivers (h : Heap) (r : Room) (m : Message) (fs : List Filter) :
    (Room.BroadCast h r m fs).2.msgs = r.msgs ++ [m] ∧
    (Room.BroadCast h r m fs).2.users = r.users ∧
    (∀ j, (Room.BroadCast h r m fs).1 j = (h j).withOutbox ((h j).outbox ++ List.replicate
      (if m.CanSend h (.session j) = true then holders r.users.entries j else 0)
      (m.String h))) ∧
    (∀ j, User.GetName h (.session j) = User.GetName h m.Author →
      (Room.BroadCast h r m fs).1 j = h j) ∧
    ((r.users.entries.map Prod.snd).Nodup →
      ∀ j, (Room.BroadCast h r m fs).1 j = (h j).withOutbox ((h j).outbox ++
        if j ∈ r.users.entries.map Prod.snd ∧ m.CanSend h (.session j) = true
        then [m.String h] else [])) := by
  refine ⟨rfl, rfl, BroadCast_apply h r m fs, ?_, ?_⟩
  · intro j hj
    rw [BroadCast_apply, CanSend_false_of_name h m (.session j) hj]
    simp [User.withOutbox]
  · intro hn j
    rw [BroadCast_apply, holders_eq_count, List.count_eq_of_nodup hn]
    by_cases hc : m.CanSend h (.session j) = true
    · by_cases hk : j ∈ r.users.entries.map Prod.snd
      · simp only [hc, hk, if_true, and_self, List.replicate_one]
      · simp only [hc, hk, if_true, if_false, false_and, List.replicate_zero]
    · simp [hc]

/-- An instance: bob speaks in the sample lobby; alice is sent the line once. -/
theorem broadCast_appends_and_delivers_witness :
    (exRoom.users.entries.map Prod.snd).Nodup ∧
    ((Room.BroadCast exHeap exRoom (NewMessage "hello" (.session 2) "Nov  1 19:51:00" []) []).1 1).outbox
      = ["Nov  1 19:51:00 - bob: hello"] :=
  ⟨by decide, by
    rw [(broadCast_appends_and_delivers exHeap exRoom
      (NewMessage "hello" (.session 2) "Nov  1 19:51:00" []) []).2.2.2.2 (by decide) 1]
    decide⟩

/-! ## Lemmas on `catchup` and `AddUser` -/

theorem catchupRange_skip (u : Nat) (m : Message) (t : List Message) (h : Heap)
    (hc : m.CanSend h (.session u) = false) :
    catchupRange u (m :: t) h = catchupRange u t h := by
  rw [catchupRange, if_pos hc]

theorem catchupRange_fail (u : Nat) (m : Message) (t : List Message) (h : Heap)
    (hc : m.CanSend h (.session u) = true) (hf : (h u).writeFails = true) :
    (catchupRange u (m :: t) h).1 = (User.Send h u (m.String h)).1 := by
  have hc2 : ¬ m.CanSend h (.session u) = false := by simp [hc]
  rw [catchupRange, if_neg hc2]
  simp [User.Send, User.drawPrompt, hf]

theorem catchupRange_ok (u : Nat) (m : Message) (t : List Message) (h : Heap)
    (hc : m.CanSend h (.session u) = true) (hf : ¬ (h u).writeFails = true) :
    catchupRange u (m :: t) h = catchupRange u t (User.Send h u (m.String h)).1 := by
  have hc2 : ¬ m.CanSend h (.session u) = false := by simp [hc]
  rw [catchupRange, if_neg hc2]
  simp [User.Send, User.drawPrompt, hf]

theorem catchupRange_sameIdentity (u : Nat) (msgs : List Message) (h : Heap) :
    SameIdentity h (catchupRange u msgs h).1 := by
  induction msgs generalizing h with
  | nil => exact SameIdentity.refl h
  | cons m t ih =>
    by_cases hc : m.CanSend h (.session u) = true
    · by_cases hf : (h u).writeFails = true
      · rw [catchupRange_fail u m t h hc hf]
        exact Send_sameIdentity h u _
      · rw [catchupRange_ok u m t h hc hf]
        exact (Send_sameIdentity h u _).trans (ih _)
    · have hc2 : m.CanSend h (.session u) = false := by simpa using hc
      rw [catchupRange_skip u m t h hc2]
      exact ih h

theorem upTo_nil {α : Type} (b : Option Nat) : upTo b ([] : List α) = [] := by
  cases b <;> simp [upTo]

theorem upTo_initial {α : Type} (b : Option Nat) (l : List α) : upTo b l <+: l := by
  cases b with
  | none => exact List.prefix_refl l
  | some n => exact List.take_prefix n l

theorem sendsToFailure_of_fails (v : User) (hf : v.writeFails = true) :
    v.sendsToFailure = some 1 := by
  unfold User.writeFails at hf
  unfold User.sendsToFailure
  by_cases hc : 0 < v.connCloses
  · simp [hc]
  · cases hk : v.failFrom with
    | none => simp [hc, hk] at hf
    | some k =>
      simp only [hc, hk, decide_False, Bool.false_or, decide_eq_true_eq] at hf
      simp only [hc, if_false, Option.some.injEq]
      omega

theorem sendsToFailure_of_sound (v : User) (hc : v.connCloses = 0) (hk : v.failFrom = none) :
    v.sendsToFailure = none := by
  simp [User.sendsToFailure, hc, hk]

theorem writeFails_eq_false_of_lt (v : User) (k : Nat) (hc : v.connCloses = 0)
    (hk : v.failFrom = some k) (hl : v.outbox.length < k) : v.writeFails = false := by
  simp [User.writeFails, hc, hk, hl]

theorem writeFails_of_le (v : User) (k : Nat) (hk : v.failFrom = some k)
    (hl : k ≤ v.outbox.length) : v.writeFails = true := by
  simp [User.writeFails, hk, hl]

theorem upTo_sendsToFailure_cons {α : Type} (v : User) (s : String) (x : α) (l : List α)
    (hf : ¬ v.writeFails = true) :
    upTo v.sendsToFailure (x :: l) =
      x :: upTo (v.withOutbox (v.outbox ++ [s])).sendsToFailure l := by
  unfold User.writeFails at hf
  unfold User.sendsToFailure User.withOutbox
  by_cases hc : 0 < v.connCloses
  · simp [hc] at hf
  · cases hk : v.failFrom with
    | none => simp [hc, upTo]
    | some k =>
      simp only [hc, hk, decide_False, Bool.false_or, decide_eq_true_eq] at hf
      simp only [hc, if_false, upTo, List.length_append, List.length_singleton]
      have e : k - v.outbox.length + 1 = (k - (v.outbox.length + 1) + 1) + 1 := by omega
      rw [e, List.take_succ_cons]

theorem catchupRange_apply (u : Nat) (msgs : List Message) (h : Heap) (j : Nat) :
    (catchupRange u msgs h).1 j =
      if j = u then
        (h u).withOutbox ((h u).outbox ++
          upTo (h u).sendsToFailure
            ((msgs.filter (fun m => m.CanSend h (.session u))).map (Message.String h)))
      else h j := by
  induction msgs generalizing h with
  | nil => by_cases hj : j = u <;> simp [catchupRange, User.withOutbox, hj, upTo_nil]
  | cons m t ih =>
    by_cases hc : m.CanSend h (.session u) = true
    · by_cases hf : (h u).writeFails = true
      · rw [catchupRange_fail u m t h hc hf, Send_apply]
        by_cases hj : j = u
        · subst hj
          simp [sendsToFailure_of_fails _ hf, upTo, List.filter_cons, hc, User.withOutbox]
        · simp [hj]
      · have hs := Send_sameIdentity h u (m.String h)
        have e1 : ∀ x : Message, x.CanSend (User.Send h u (m.String h)).1 (.session u)
            = x.CanSend h (.session u) := fun x => hs.CanSend x _
        have e2 : Message.String (User.Send h u (m.String h)).1 = Message.String h :=
          funext fun x => hs.String x
        have e3 : (User.Send h u (m.String h)).1 u
            = (h u).withOutbox ((h u).outbox ++ [m.String h]) := by
          rw [Send_apply, if_pos rfl]; rfl
        rw [catchupRange_ok u m t h hc hf, ih]
        simp only [e1, e2, List.filter_cons, hc, if_true, List.map_cons]
        rw [upTo_sendsToFailure_cons (h u) (m.String h) _ _ hf, e3]
        by_cases hj : j = u
        · subst hj; simp [User.withOutbox]
        · simp [User.Send, Heap.set, hj]
    · have hc2 : m.CanSend h (.session u) = false := by simpa using hc
      rw [catchupRange_skip u m t h hc2, ih h]
      simp [List.filter_cons, hc2]

theorem joinNotice_rejects_joiner (h : Heap) (u : Nat) (now : String) :
    (joinNotice h u now).CanSend h (.session u) = false := by
  cases hc : (joinNotice h u now).CanSend h (.session u) with
  | false => rfl
  | true =>
    have := ((CanSend_eq_true_iff h _ _).1 hc).2.2
    exact absurd (by simp [joinNotice, NewMessage]) this

theorem AddUser_member (h : Heap) (r : Room) (u v : Nat) (now : String)
    (hm : r.users.Load (User.GetName h (.session u)) = some v) :
    Room.AddUser h r u now = (h, r) := by
  simp [Room.AddUser, hm]

theorem AddUser_new (h : Heap) (r : Room) (u : Nat) (now : String)
    (hnew : r.users.Load (User.GetName h (.session u)) = none) :
    Room.AddUser h r u now =
      ((Room.catchup
          (Room.BroadCast h { r with users := r.users.Store (User.GetName h (.session u)) u }
            (joinNotice h u now) []).1
          (Room.BroadCast h { r with users := r.users.Store (User.GetName h (.session u)) u }
            (joinNotice h u now) []).2 u).1,
       (Room.BroadCast h { r with users := r.users.Store (User.GetName h (.session u)) u }
            (joinNotice h u now) []).2) := by
  simp [Room.AddUser, hnew, joinNotice]

theorem AddUser_new_room (h : Heap) (r : Room) (u : Nat) (now : String)
    (hnew : r.users.Load (User.GetName h (.session u)) = none) :
    (Room.AddUser h r u now).2 =
      { r with users := r.users.Store (User.GetName h (.session u)) u,
               msgs := r.msgs ++ [joinNotice h u now] } := by
  rw [AddUser_new h r u now hnew]
  rfl

theorem AddUser_sameIdentity (h : Heap) (r : Room) (u : Nat) (now : String) :
    SameIdentity h (Room.AddUser h r u now).1 := by
  cases hl : r.users.Load (User.GetName h (.session u)) with
  | some v => rw [AddUser_member h r u v now hl]; exact SameIdentity.refl h
  | none =>
    rw [AddUser_new h r u now hl]
    exact (BroadCast_sameIdentity h _ _ _).trans (catchupRange_sameIdentity _ _ _)

theorem AddUser_new_self (h : Heap) (r : Room) (u : Nat) (now : String)
    (hnew : r.users.Load (User.GetName h (.session u)) = none) :
    (Room.AddUser h r u now).1 u =
      (h u).withOutbox ((h u).outbox ++
        upTo (h u).sendsToFailure
          ((r.msgs.filter (fun m => m.CanSend h (.session u))).map (Message.String h))) := by
  have hb := BroadCast_sameIdentity h
    { r with users := r.users.Store (User.GetName h (.session u)) u } (joinNotice h u now) []
  have hu : (Room.BroadCast h { r with users := r.users.Store (User.GetName h (.session u)) u }
      (joinNotice h u now) []).1 u = h u := by
    rw [BroadCast_apply, joinNotice_rejects_joiner]
    simp [User.withOutbox]
  have e1 : ∀ x : Message, x.CanSend (Room.BroadCast h
      { r with users := r.users.Store (User.GetName h (.session u)) u }
      (joinNotice h u now) []).1 (.session u) = x.CanSend h (.session u) :=
    fun x => hb.CanSend x _
  have e2 : Message.String (Room.BroadCast h
      { r with users := r.users.Store (User.GetName h (.session u)) u }
      (joinNotice h u now) []).1 = Message.String h :=
    funext fun x => hb.String x
  rw [AddUser_new h r u now hnew]
  simp only [Room.catchup]
  rw [catchupRange_apply, if_pos rfl, hu]
  simp only [e1, e2, BroadCast_room, List.filter_append, List.filter_cons, List.filter_nil,
    joinNotice_rejects_joiner, List.append_nil]
  simp

theorem AddUser_new_other (h : Heap) (r : Room) (u j : Nat) (now : String)
    (hnew : r.users.Load (User.GetName h (.session u)) = none) (hj : j ≠ u) :
    (Room.AddUser h r u now).1 j =
      (Room.BroadCast h { r with users := r.users.Store (User.GetName h (.session u)) u }
            (joinNotice h u now) []).1 j := by
  rw [AddUser_new h r u now hnew]
  simp only [Room.catchup]
  rw [catchupRange_apply, if_neg hj]

theorem upTo_sendsToFailure_spec {α : Type} (v : User) (l : List α) :
    (∀ i, i + 1 < (upTo v.sendsToFailure l).length →
      (v.withOutbox (v.outbox ++ (List.replicate i "")) ).writeFails = false) ∧
    (upTo v.sendsToFailure l ≠ l →
      (v.withOutbox (v.outbox ++ List.replicate ((upTo v.sendsToFailure l).length - 1) "")
        ).writeFails = true) := by
  unfold User.sendsToFailure User.writeFails User.withOutbox
  by_cases hc : 0 < v.connCloses
  · simp only [hc, if_true, upTo, List.length_take]
    refine ⟨fun i hi => ?_, fun _ => by simp⟩
    omega
  · cases hk : v.failFrom with
    | none => simp [hc, upTo]
    | some k =>
      simp only [hc, if_false, upTo, List.length_take, List.length_append,
        List.length_replicate, decide_False, Bool.false_or, decide_eq_true_eq,
        decide_eq_false_iff_not]
      refine ⟨fun i hi => by omega, fun hne => ?_⟩
      have hlt : k - v.outbox.length + 1 < l.length := by
        by_contra hge
        exact hne (List.take_of_length_le (by omega))
      omega

theorem writeFails_congr_length (v : User) (o o2 : List String) (hl : o.length = o2.length) :
    (v.withOutbox o).writeFails = (v.withOutbox o2).writeFails := by
  simp [User.writeFails, User.withOutbox, hl]

/-- C3 (as amended): when the session `u` is not yet a member, `Room.AddUser`
sends to `u` messages of the history that the visibility predicate accepts for
`u`, in history order and each once, and nothing else: all of them when no
write to the connection of `u` fails, and else those up to and with the first
one whose write fails.  `sent` is what `u` is sent; it is a prefix of the
accepted messages, its length is given by `User.sendsToFailure`, it is all of
the accepted messages when no write of the replay fails, every `Send` before
its last one succeeded, and when it falls short of the accepted messages its
last `Send` failed.  The write of the `Send` number `i` of the replay fails or
not as `User.writeFails` says of the record of `u` with the first `i` of these
messages added to its outbox. -/
theorem addUser_catchup_replays_visible (h : Heap) (r : Room) (u : Nat) (now : String)
    (hnew : r.users.Load (User.GetName h (.session u)) = none) :
    ∃ sent : List String,
      ((Room.AddUser h r u now).1 u).outbox = (h u).outbox ++ sent ∧
      sent = upTo (h u).sendsToFailure
        ((r.msgs.filter (fun m => m.CanSend h (.session u))).map (Message.String h)) ∧
      sent <+: (r.msgs.filter (fun m => m.CanSend h (.session u))).map (Message.String h) ∧
      ((∀ i, i < ((r.msgs.filter (fun m => m.CanSend h (.session u))).map
            (Message.String h)).length →
          ((h u).withOutbox ((h u).outbox ++
            ((r.msgs.filter (fun m => m.CanSend h (.session u))).map
              (Message.String h)).take i)).writeFails = false) →
        sent = (r.msgs.filter (fun m => m.CanSend h (.session u))).map (Message.String h)) ∧
      (∀ i, i + 1 < sent.length →
        ((h u).withOutbox ((h u).outbox ++ sent.take i)).writeFails = false) ∧
      (sent ≠ (r.msgs.filter (fun m => m.CanSend h (.session u))).map (Message.String h) →
        ((h u).withOutbox ((h u).outbox ++ sent.dropLast)).writeFails = true) := by
  have hspec := upTo_sendsToFailure_spec (h u)
    ((r.msgs.filter (fun m => m.CanSend h (.session u))).map (Message.String h))
  refine ⟨_, ?_, rfl, upTo_initial _ _, ?_, ?_, ?_⟩
  · rw [AddUser_new_self h r u now hnew]
    rfl
  · intro hok
    by_contra hne
    have hlt : (upTo (h u).sendsToFailure ((r.msgs.filter
        (fun m => m.CanSend h (.session u))).map (Message.String h))).length
        < ((r.msgs.filter (fun m => m.CanSend h (.session u))).map (Message.String h)).length := by
      rcases Nat.lt_or_ge (upTo (h u).sendsToFailure ((r.msgs.filter
        (fun m => m.CanSend h (.session u))).map (Message.String h))).length
        ((r.msgs.filter (fun m => m.CanSend h (.session u))).map (Message.String h)).length
        with hlt | hge
      · exact hlt
      · exact absurd ((upTo_initial _ _).eq_of_length_le hge) hne
    have hfail := hspec.2 hne
    have hfine := hok ((upTo (h u).sendsToFailure ((r.msgs.filter
      (fun m => m.CanSend h (.session u))).map (Message.String h))).length - 1) (by omega)
    rw [writeFails_congr_length (h u) _ ((h u).outbox ++ List.replicate
      ((upTo (h u).sendsToFailure ((r.msgs.filter
        (fun m => m.CanSend h (.session u))).map (Message.String h))).length - 1) "")] at hfine
    · rw [hfine] at hfail
      exact Bool.noConfusion hfail
    · simp only [List.length_append, List.length_take, List.length_replicate]
      omega
  · intro i hi
    rw [writeFails_congr_length (h u) _ ((h u).outbox ++ List.replicate i "")]
    · exact hspec.1 i hi
    · simp only [List.length_append, List.length_take, List.length_replicate]
      omega
  · intro hne
    rw [writeFails_congr_length (h u) _ ((h u).outbox ++ List.replicate
      ((upTo (h u).sendsToFailure ((r.msgs.filter
        (fun m => m.CanSend h (.session u))).map (Message.String h))).length - 1) "")]
    · exact hspec.2 hne
    · simp only [List.length_append, List.length_dropLast, List.length_replicate]

/-- Witness for C3 (as amended): dave joins the sample lobby after three lines
were said; his connection breaks after one write, so he is sent the first line
and the second, whose write fails, and not the third. -/
theorem addUser_catchup_replays_visible_witness :
    exRoomTalk3.users.Load (User.GetName exHeapBreak (.session 4)) = none ∧
    ((Room.AddUser exHeapBreak exRoomTalk3 4 "t4").1 4).outbox
      = ["t1 - alice: one", "t2 - bob: two"] := by
  refine ⟨by decide, ?_⟩
  obtain ⟨sent, h1, h2, _⟩ :=
    addUser_catchup_replays_visible exHeapBreak exRoomTalk3 4 "t4" (by decide)
  rw [h1, h2]
  decide

/-- Counterexample to C3 as stated: dave's connection rejects writes; the
history holds two messages that the predicate accepts for dave, and
`Room.AddUser` sends him the first one only. -/
theorem addUser_catchup_stops_at_failed_write :
    exRoomTalk.users.Load (User.GetName exHeapFail (.session 4)) = none ∧
    (exRoomTalk.msgs.filter (fun m => m.CanSend exHeapFail (.session 4))).map
      (Message.String exHeapFail) = ["t1 - alice: one", "t2 - bob: two"] ∧
    ((Room.AddUser exHeapFail exRoomTalk 4 "t3").1 4).outbox = ["t1 - alice: one"] := by
  decide

theorem GoMap.count_key_of_Load {α : Type} (m : GoMap α) (k : String) (v : α)
    (hl : m.Load k = some v) : m.keys.count k = 1 := by
  have hm : k ∈ m.keys := List.mem_map.2 ⟨(k, v), lookupKey_mem k v m.entries hl, rfl⟩
  exact List.count_eq_one_of_mem m.nodup hm

theorem AddUser_Load_self (h : Heap) (r : Room) (u : Nat) (now : String) :
    ∃ v, (Room.AddUser h r u now).2.users.Load
      (User.GetName (Room.AddUser h r u now).1 (.session u)) = some v := by
  rw [(AddUser_sameIdentity h r u now).GetName]
  cases hl : r.users.Load (User.GetName h (.session u)) with
  | some v => rw [AddUser_member h r u v now hl]; exact ⟨v, hl⟩
  | none =>
    rw [AddUser_new_room h r u now hl]
    exact ⟨u, by simp [GoMap.Load_Store]⟩

/-- C5: `Room.AddUser` on a session whose name is already a key of the member
map changes nothing (same heap, so nothing is sent to anyone, and same room:
members and history); hence a second `AddUser` of the same session right after
a first one changes nothing, and the member map then holds exactly one entry
for the session's name. -/
theorem addUser_idempotent (h : Heap) (r : Room) (u : Nat) (now now2 : String) :
    ((r.users.Load (User.GetName h (.session u))).isSome = true →
      Room.AddUser h r u now = (h, r)) ∧
    Room.AddUser (Room.AddUser h r u now).1 (Room.AddUser h r u now).2 u now2
      = Room.AddUser h r u now ∧
    (Room.AddUser h r u now).2.users.keys.count (User.GetName h (.session u)) = 1 := by
  refine ⟨?_, ?_, ?_⟩
  · intro hs
    obtain ⟨v, hv⟩ := Option.isSome_iff_exists.1 hs
    exact AddUser_member h r u v now hv
  · obtain ⟨v, hv⟩ := AddUser_Load_self h r u now
    exact AddUser_member _ _ u v now2 hv
  · obtain ⟨v, hv⟩ := AddUser_Load_self h r u now
    rw [(AddUser_sameIdentity h r u now).GetName] at hv
    exact GoMap.count_key_of_Load _ _ v hv

/-- Witness for C5: bob is a member of the sample lobby already. -/
theorem addUser_idempotent_witness :
    (exRoom.users.Load (User.GetName exHeap (.session 2))).isSome = true ∧
    Room.AddUser exHeap exRoom 2 "t1" = (exHeap, exRoom) :=
  ⟨by decide, (addUser_idempotent exHeap exRoom 2 "t1" "t2").1 (by decide)⟩

/-! ## Lemmas on the room manager -/

theorem JoinRoom_absent (w : World) (u : Nat) (n now : String) (hn : w.rooms.Load n = none) :
    RoomManager.JoinRoom w u n now = (w, some (roomNotFound n)) := by
  simp [RoomManager.JoinRoom, hn]

theorem JoinRoom_present (w : World) (u : Nat) (n now : String) (r : Room)
    (hn : w.rooms.Load n = some r) :
    RoomManager.JoinRoom w u n now =
      ({ rooms := w.rooms.Store n (Room.AddUser w.users r u now).2,
         users := (Room.AddUser w.users r u now).1 }, none) := by
  simp [RoomManager.JoinRoom, hn]

theorem Broadcast_absent (w : World) (n : String) (m : Message) (hn : w.rooms.Load n = none) :
    RoomManager.Broadcast w n m = (w, some (roomNotFound n)) := by
  simp [RoomManager.Broadcast, hn]

theorem Broadcast_present (w : World) (n : String) (m : Message) (r : Room)
    (hn : w.rooms.Load n = some r) :
    RoomManager.Broadcast w n m =
      ({ rooms := w.rooms.Store n (Room.BroadCast w.users r m []).2,
         users := (Room.BroadCast w.users r m []).1 }, none) := by
  simp [RoomManager.Broadcast, hn]

theorem LeaveRoom_absent (w : World) (u : Nat) (n now : String) (hn : w.rooms.Load n = none) :
    RoomManager.LeaveRoom w u n now = w := by
  simp [RoomManager.LeaveRoom, hn]

theorem LeaveRoom_present (w : World) (u : Nat) (n now : String) (r : Room)
    (hn : w.rooms.Load n = some r) :
    RoomManager.LeaveRoom w u n now =
      { rooms := w.rooms.Store n (Room.RemoveUser w.users r u now).2,
        users := (Room.RemoveUser w.users r u now).1 } := by
  simp [RoomManager.LeaveRoom, hn]

/-- C10: `RoomManager.JoinRoom` and `RoomManager.Broadcast` return an error
exactly when the room name is not a key of the directory; in that case the
whole state (directory, every room, every session, so every outbox) is what it
was; when the name is present they return no error. -/
theorem joinRoom_broadcast_error_iff_absent (w : World) (u : Nat) (n now : String) (m : Message) :
    ((RoomManager.JoinRoom w u n now).2.isSome = true ↔ w.rooms.Load n = none) ∧
    ((RoomManager.Broadcast w n m).2.isSome = true ↔ w.rooms.Load n = none) ∧
    (w.rooms.Load n = none →
      (RoomManager.JoinRoom w u n now).1 = w ∧ (RoomManager.Broadcast w n m).1 = w) ∧
    ((w.rooms.Load n).isSome = true →
      (RoomManager.JoinRoom w u n now).2 = none ∧ (RoomManager.Broadcast w n m).2 = none) := by
  cases hn : w.rooms.Load n with
  | none =>
    rw [JoinRoom_absent w u n now hn, Broadcast_absent w n m hn]
    simp
  | some r =>
    rw [JoinRoom_present w u n now r hn, Broadcast_present w n m r hn]
    simp

/-- Witness for C10: the sample world has no room `attic`, and has a lobby. -/
theorem joinRoom_broadcast_error_iff_absent_witness :
    (exWorld.rooms.Load "attic" = none ∧
      (RoomManager.JoinRoom exWorld 1 "attic" "t1").1 = exWorld ∧
      (RoomManager.Broadcast exWorld "attic" (NewMessage "hi" (.session 1) "t1" [])).1 = exWorld) ∧
    ((exWorld.rooms.Load "lobby").isSome = true ∧
      (RoomManager.JoinRoom exWorld 1 "lobby" "t1").2 = none ∧
      (RoomManager.Broadcast exWorld "lobby" (NewMessage "hi" (.session 1) "t1" [])).2 = none) :=
  ⟨⟨by decide, (joinRoom_broadcast_error_iff_absent exWorld 1 "attic" "t1"
      (NewMessage "hi" (.session 1) "t1" [])).2.2.1 (by decide)⟩,
   ⟨by decide, (joinRoom_broadcast_error_iff_absent exWorld 1 "lobby" "t1"
      (NewMessage "hi" (.session 1) "t1" [])).2.2.2 (by decide)⟩⟩

/-! ## Lemmas on the session -/

theorem GoMap.keys_Store_of_Load {α : Type} (m : GoMap α) (k : String) (v v2 : α)
    (hl : m.Load k = some v) : (m.Store k v2).keys = m.keys := by
  have hm : k ∈ m.entries.map Prod.fst :=
    List.mem_map.2 ⟨(k, v), lookupKey_mem k v m.entries hl, rfl⟩
  simp only [GoMap.keys, GoMap.Store, storeKey_keys, hm, if_true]

theorem BroadCast_outboxOnly (h : Heap) (r : Room) (m : Message) (fs : List Filter) (j : Nat) :
    (Room.BroadCast h r m fs).1 j = (h j).withOutbox ((Room.BroadCast h r m fs).1 j).outbox := by
  rw [BroadCast_apply]
  rfl

theorem parseCommand_name (w : World) (u : Nat) (cmd n now : String) (rest : List String)
    (hs : Split cmd = "name" :: n :: rest) :
    User.parseCommand w u cmd now = .ok (User.SetName w u n now) := by
  simp [User.parseCommand, hs]

theorem SetName_present (w : World) (u : Nat) (n now : String) (r : Room)
    (hr : w.rooms.Load (w.users u).CurrentRoom = some r) :
    (User.SetName w u n now).1.rooms = w.rooms.Store (w.users u).CurrentRoom
        { r with msgs := r.msgs ++ [NewMessage ("changed name to " ++ n) (.session u) now []] } ∧
    ((User.SetName w u n now).1.users u).Name = n := by
  constructor
  · simp [User.SetName, RoomManager.Broadcast, Heap.set, hr, Room.BroadCast]
  · simp only [User.SetName, Send_apply, if_true]
    simp only [RoomManager.Broadcast, Heap.set, if_true, hr]
    rw [BroadCast_outboxOnly]
    simp [User.withOutbox, Heap.set]

/-- The `name` command in general: a command whose action word is `name` and
whose first argument is `n`, issued by a session whose current room exists,
completes, sets the session's name to `n` and appends exactly one
message to the history of that room: content `changed name to n`, author the
session itself, whose name now reads `n`.  The members of that room, every
other room and the set of rooms stay as they were. -/
theorem name_command_first_argument (w : World) (u : Nat) (cmd n now : String)
    (rest : List String) (r : Room)
    (hs : Split cmd = "name" :: n :: rest)
    (hr : w.rooms.Load (w.users u).CurrentRoom = some r) :
    ∃ w1 err, User.parseCommand w u cmd now = .ok (w1, err) ∧
      (w1.users u).Name = n ∧
      w1.rooms.Load (w.users u).CurrentRoom = some
        { r with msgs := r.msgs ++ [NewMessage ("changed name to " ++ n) (.session u) now []] } ∧
      User.GetName w1.users (NewMessage ("changed name to " ++ n) (.session u) now []).Author = n ∧
      (∀ k, k ≠ (w.users u).CurrentRoom → w1.rooms.Load k = w.rooms.Load k) ∧
      w1.rooms.keys = w.rooms.keys := by
  refine ⟨(User.SetName w u n now).1, (User.SetName w u n now).2,
    parseCommand_name w u cmd n now rest hs, (SetName_present w u n now r hr).2, ?_,
    (SetName_present w u n now r hr).2, ?_, ?_⟩
  · rw [(SetName_present w u n now r hr).1, GoMap.Load_Store, if_pos rfl]
  · intro k hk
    rw [(SetName_present w u n now r hr).1, GoMap.Load_Store, if_neg hk]
  · rw [(SetName_present w u n now r hr).1]
    exact GoMap.keys_Store_of_Load _ _ r _ hr

theorem LeaveRoom_outboxOnly (w : World) (u : Nat) (n now : String) (j : Nat) :
    (RoomManager.LeaveRoom w u n now).users j =
      (w.users j).withOutbox ((RoomManager.LeaveRoom w u n now).users j).outbox := by
  cases hn : w.rooms.Load n with
  | none => rw [LeaveRoom_absent w u n now hn]; rfl
  | some r =>
    rw [LeaveRoom_present w u n now r hn]
    exact BroadCast_outboxOnly w.users _ _ [] j

theorem Close_closed (w : World) (u : Nat) (now : String) (hc : (w.users u).closed = true) :
    User.Close w u now = .error .closeOfClosedChannel := by
  simp [User.Close, hc]

theorem Close_open (w : World) (u : Nat) (now : String) (hc : (w.users u).closed = false) :
    ∃ w1 err, User.Close w u now = .ok (w1, err) ∧
      (w1.users u).closed = true ∧
      (w1.users u).connCloses = (w.users u).connCloses + 1 := by
  refine ⟨_, _, by simp only [User.Close, hc, Bool.false_eq_true, if_false]; rfl, ?_, ?_⟩
  · simp only [Heap.set, if_true]
    rw [LeaveRoom_outboxOnly]
    simp [User.withOutbox, Heap.set]
  · simp only [Heap.set, if_true]
    rw [LeaveRoom_outboxOnly]
    simp [User.withOutbox, Heap.set]

theorem parseCommand_quit (w : World) (u : Nat) (now : String) :
    User.parseCommand w u "quit" now = User.Close w u now := by
  have hs : Split "quit" = ["quit"] := by decide
  simp [User.parseCommand, hs]

theorem handleStep_closed (w : World) (u : Nat) (now : String) (hc : (w.users u).closed = true) :
    User.handleStep w u now = .ok (w, false) := by
  simp [User.handleStep, hc]

/-- C8 (as amended): the first `Close` of a session completes without a fault,
marks the session closed and closes the connection once.  `Close` is not
idempotent: another `Close`, called directly or through another `quit`, faults
at the close of the already closed channel before it reaches the room or the
connection; the session loop stops at a closed session without calling it. -/
theorem close_releases_once_then_faults (w : World) (u : Nat) (now : String)
    (hc : (w.users u).closed = false) :
    ∃ w1 err, User.Close w u now = .ok (w1, err) ∧
      (w1.users u).closed = true ∧
      (w1.users u).connCloses = (w.users u).connCloses + 1 ∧
      (∀ now2, User.Close w1 u now2 = .error .closeOfClosedChannel) ∧
      (∀ now2, User.parseCommand w1 u "quit" now2 = .error .closeOfClosedChannel) ∧
      (∀ now2, User.handleStep w1 u now2 = .ok (w1, false)) := by
  obtain ⟨w1, err, h1, h2, h3⟩ := Close_open w u now hc
  refine ⟨w1, err, h1, h2, h3, fun now2 => Close_closed w1 u now2 h2, fun now2 => ?_,
    fun now2 => handleStep_closed w1 u now2 h2⟩
  rw [parseCommand_quit]
  exact Close_closed w1 u now2 h2

/-- Witness for C8 (as amended): bob of the sample world is not closed. -/
theorem close_releases_once_then_faults_witness :
    (exWorld.users 2).closed = false ∧
    ∃ w1 err, User.Close exWorld 2 "t1" = .ok (w1, err) ∧
      (w1.users 2).closed = true ∧
      (w1.users 2).connCloses = (exWorld.users 2).connCloses + 1 ∧
      (∀ now2, User.Close w1 2 now2 = .error .closeOfClosedChannel) ∧
      (∀ now2, User.parseCommand w1 2 "quit" now2 = .error .closeOfClosedChannel) ∧
      (∀ now2, User.handleStep w1 2 now2 = .ok (w1, false)) :=
  ⟨by decide, close_releases_once_then_faults exWorld 2 "t1" (by decide)⟩

/-- Counterexample to C8 as stated: in the sample world bob closes, by `Close`
or by `quit`; a second `Close` then ends in a runtime fault. -/
theorem second_close_faults :
    (match User.Close exWorld 2 "t1" with
      | .ok (w1, _) => User.Close w1 2 "t2"
      | .error f => .error f) = .error .closeOfClosedChannel ∧
    (match User.parseCommand exWorld 2 "quit" "t1" with
      | .ok (w1, _) => User.Close w1 2 "t2"
      | .error f => .error f) = .error .closeOfClosedChannel := by
  constructor <;> rfl

/-- C9 (the code at the failing input): a `name` command without argument ends
in an index-out-of-range fault, whatever the state; an `ignore` command without
argument returns an error and leaves the state as it was. -/
theorem name_without_argument_faults (w : World) (u : Nat) (now : String) :
    User.parseCommand w u "name" now = .error .indexOutOfRange ∧
    User.parseCommand w u "ignore" now = .ok (w, some "expected <name> argument after action") := by
  have h1 : Split "name" = ["name"] := by decide
  have h2 : Split "ignore" = ["ignore"] := by decide
  constructor
  · simp [User.parseCommand, h1]
  · simp [User.parseCommand, h2]

theorem CanSend_congr (h h1 : Heap) (m : Message) (r : UserRef)
    (ha : User.GetName h1 m.Author = User.GetName h m.Author)
    (hn : User.GetName h1 r = User.GetName h r)
    (hf : (deref h1 r).filters = (deref h r).filters) :
    m.CanSend h1 r = m.CanSend h r := by
  simp only [Message.CanSend, Message.checkMessageFilters, ha, hn, hf]

theorem String_congr (h h1 : Heap) (m : Message)
    (ha : User.GetName h1 m.Author = User.GetName h m.Author) :
    m.String h1 = m.String h := by
  simp only [Message.String, ha]

theorem CanSend_false_of_ignored (h : Heap) (m : Message) (u : UserRef)
    (hi : ({ UserName := User.GetName h m.Author } : Filter) ∈ (deref h u).filters) :
    m.CanSend h u = false := by
  cases hc : m.CanSend h u with
  | false => rfl
  | true => exact absurd hi ((CanSend_eq_true_iff h m u).1 hc).2.1

theorem BroadCast_ignored (h : Heap) (r : Room) (m : Message) (fs : List Filter) (a : Nat)
    (hi : ({ UserName := User.GetName h m.Author } : Filter) ∈ (h a).filters) :
    (Room.BroadCast h r m fs).1 a = h a := by
  rw [BroadCast_apply, CanSend_false_of_ignored h m (.session a) hi]
  simp [User.withOutbox]

theorem parseCommand_ignore (w : World) (u : Nat) (cmd n now : String) (rest : List String)
    (hs : Split cmd = "ignore" :: n :: rest) :
    User.parseCommand w u cmd now = .ok (⟨w.rooms, w.users.set u
      { w.users u with filters := (w.users u).filters ++ [{ UserName := n }] }⟩, none) := by
  simp [User.parseCommand, hs]

theorem GetName_set_filters (h : Heap) (a : Nat) (fs : List Filter) (r : UserRef) :
    User.GetName (h.set a { h a with filters := fs }) r = User.GetName h r := by
  cases r with
  | server => rfl
  | session i =>
    by_cases hi : i = a
    · subst hi; simp [User.GetName, deref, Heap.set]
    · simp [User.GetName, deref, Heap.set, hi]

/-- C4 (as amended): an `ignore` command with argument `n` completes and adds
`n` to the issuer's ignore list, changing nothing else.  From then on a
message whose author bears the name `n` when it is broadcast is not sent to the
issuer, is appended to the history, and is sent to every other session once per
member entry that holds it when the visibility predicate accepts that session,
as it would have been without the command.  The same holds in every later
state in which the ignore list of the issuer holds the current name of the
author. -/
theorem ignore_command_suppresses_author (w : World) (a : Nat) (cmd n now : String)
    (rest : List String) (hs : Split cmd = "ignore" :: n :: rest) :
    ∃ w1, User.parseCommand w a cmd now = .ok (w1, none) ∧
      w1.rooms = w.rooms ∧
      (w1.users a).filters = (w.users a).filters ++ [{ UserName := n }] ∧
      (∀ j, j ≠ a → w1.users j = w.users j) ∧
      (∀ (r : Room) (m : Message), User.GetName w1.users m.Author = n →
        (Room.BroadCast w1.users r m []).1 a = w1.users a ∧
        (Room.BroadCast w1.users r m []).2.msgs = r.msgs ++ [m] ∧
        ∀ j, j ≠ a → (Room.BroadCast w1.users r m []).1 j =
          (w.users j).withOutbox ((w.users j).outbox ++ List.replicate
            (if m.CanSend w.users (.session j) = true then holders r.users.entries j else 0)
            (m.String w.users))) ∧
      (∀ (h : Heap) (r : Room) (m : Message),
        ({ UserName := User.GetName h m.Author } : Filter) ∈ (h a).filters →
        (Room.BroadCast h r m []).1 a = h a ∧
        (Room.BroadCast h r m []).2.msgs = r.msgs ++ [m]) := by
  refine ⟨_, parseCommand_ignore w a cmd n now rest hs, rfl, by simp [Heap.set], ?_, ?_, ?_⟩
  · intro j hj
    simp [Heap.set, hj]
  · intro r m hm
    refine ⟨?_, rfl, ?_⟩
    · apply BroadCast_ignored
      rw [hm]
      simp [Heap.set]
    · intro j hj
      rw [BroadCast_apply]
      have e1 : m.CanSend (w.users.set a
          { w.users a with filters := (w.users a).filters ++ [{ UserName := n }] }) (.session j)
          = m.CanSend w.users (.session j) := by
        apply CanSend_congr
        · exact GetName_set_filters _ _ _ _
        · exact GetName_set_filters _ _ _ _
        · simp [deref, Heap.set, hj]
      have e2 : m.String (w.users.set a
          { w.users a with filters := (w.users a).filters ++ [{ UserName := n }] })
          = m.String w.users := String_congr _ _ _ (GetName_set_filters _ _ _ _)
      simp only [e1, e2]
      simp [Heap.set, hj]
  · intro h r m hi
    exact ⟨BroadCast_ignored h r m [] a hi, rfl⟩

/-- Witness for C4 (as amended): alice of the sample world issues `ignore bob`;
bob's next line is not sent to her. -/
theorem ignore_command_suppresses_author_witness :
    Split "ignore bob" = "ignore" :: "bob" :: [] ∧
    ∃ w1, User.parseCommand exWorld 1 "ignore bob" "t1" = .ok (w1, none) ∧
      (Room.BroadCast w1.users exRoom (NewMessage "hi" (.session 2) "t2" []) []).1 1
        = w1.users 1 := by
  refine ⟨by decide, ?_⟩
  obtain ⟨w1, h1, -, -, h4, h5, -⟩ :=
    ignore_command_suppresses_author exWorld 1 "ignore bob" "bob" "t1" [] (by decide)
  refine ⟨w1, h1, (h5 exRoom (NewMessage "hi" (.session 2) "t2" []) ?_).1⟩
  have : w1.users 2 = exWorld.users 2 := h4 2 (by decide)
  simp only [NewMessage, User.GetName, deref, this]
  decide

/-- Counterexample to C4 as stated.  First run: alice ignores bob, bob renames
himself to rob and says `hi`; alice is sent the line.  Second run: carol
ignores bob, then alice ignores bob, and bob says `hi`; carol, another member
of the room, is not sent the line. -/
theorem ignore_does_not_follow_rename_nor_reach_all :
    (do let (w1, _) ← User.parseCommand exWorld 1 "ignore bob" "t1"
        let (w2, _) ← User.parseCommand w1 2 "name rob" "t2"
        pure ((RoomManager.Broadcast w2 "lobby" (NewMessage "hi" (.session 2) "t3" [])).1.users 1).outbox)
      = Except.ok ["t2 - rob: changed name to rob", "t3 - rob: hi"] ∧
    (do let (w1, _) ← User.parseCommand exWorld 3 "ignore bob" "t1"
        let (w2, _) ← User.parseCommand w1 1 "ignore bob" "t2"
        pure ((RoomManager.Broadcast w2 "lobby" (NewMessage "hi" (.session 2) "t3" [])).1.users 3).outbox)
      = Except.ok [] := by
  constructor <;> rfl

theorem RemoveUser_eq (h : Heap) (r : Room) (u : Nat) (now : String) :
    Room.RemoveUser h r u now =
      Room.BroadCast h { r with users := r.users.Delete (User.GetName h (.session u)) }
        (leftNotice h u now) [] := rfl

theorem set_closed_sameIdentity (h : Heap) (u : Nat) :
    SameIdentity h (h.set u { h u with closed := true }) := by
  intro j
  by_cases hj : j = u
  · subst hj; simp [Heap.set]
  · simp [Heap.set, hj]

theorem leftNotice_congr {h h1 : Heap} (a : SameIdentity h h1) (u : Nat) (now : String) :
    leftNotice h1 u now = leftNotice h u now := by
  simp only [leftNotice, a.GetName]

theorem Close_present (w : World) (u : Nat) (now : String) (r : Room)
    (hopen : (w.users u).closed = false)
    (hr : w.rooms.Load (w.users u).CurrentRoom = some r) :
    ∃ w1 err, User.Close w u now = .ok (w1, err) ∧
      w1.rooms = w.rooms.Store (w.users u).CurrentRoom
        { r with users := r.users.Delete (User.GetName w.users (.session u)),
                 msgs := r.msgs ++ [leftNotice w.users u now] } ∧
      ∀ j, (w1.users j).outbox = (w.users j).outbox ++ List.replicate
        (if (leftNotice w.users u now).CanSend w.users (.session j) = true
          then holders (r.users.Delete (User.GetName w.users (.session u))).entries j else 0)
        ((leftNotice w.users u now).String w.users) := by
  have hs := set_closed_sameIdentity w.users u
  have hcur : ((w.users.set u { w.users u with closed := true }) u).CurrentRoom
      = (w.users u).CurrentRoom := by simp [Heap.set]
  have hl := LeaveRoom_present ⟨w.rooms, w.users.set u { w.users u with closed := true }⟩ u
    (w.users u).CurrentRoom now r hr
  rw [RemoveUser_eq, leftNotice_congr hs, hs.GetName] at hl
  refine ⟨_, _, by simp only [User.Close, hopen, Bool.false_eq_true, if_false]; rfl, ?_, ?_⟩
  · simp only [hcur]
    rw [hl]
    rfl
  · intro j
    simp only [hcur]
    rw [hl]
    simp only []
    have hb := BroadCast_apply (w.users.set u { w.users u with closed := true })
      { r with users := r.users.Delete (User.GetName w.users (.session u)) }
      (leftNotice w.users u now) [] j
    rw [hs.CanSend, hs.String] at hb
    by_cases hj : j = u
    · subst hj
      simp only [Heap.set, if_true] at hb ⊢
      rw [hb]
      simp [User.withOutbox]
    · simp only [Heap.set, hj, if_false] at hb ⊢
      rw [hb]
      simp [User.withOutbox]

theorem holders_pos_of_Load (m : GoMap Nat) (k : String) (j : Nat) (hl : m.Load k = some j) :
    0 < holders m.entries j := by
  rw [holders_eq_count]
  exact List.count_pos_iff.2 ((mem_values_iff_Load m j).2 ⟨k, hl⟩)

theorem holders_zero_of_no_Load (m : GoMap Nat) (j : Nat) (hl : ∀ k, m.Load k ≠ some j) :
    holders m.entries j = 0 := by
  rw [holders_eq_count]
  apply List.count_eq_zero_of_not_mem
  intro hj
  obtain ⟨k, hk⟩ := (mem_values_iff_Load m j).1 hj
  exact hl k hk

theorem leftNotice_CanSend (h : Heap) (u j : Nat) (now : String)
    (hn : (h j).Name ≠ "server") (hf : ({ UserName := "server" } : Filter) ∉ (h j).filters) :
    (leftNotice h u now).CanSend h (.session j) = true := by
  rw [CanSend_eq_true_iff]
  exact ⟨hn, hf, by simp [leftNotice, NewMessage]⟩

theorem handleStep_eof (w : World) (u : Nat) (now : String)
    (hopen : (w.users u).closed = false) (hin : (w.users u).inbox = []) :
    User.handleStep w u now =
      match User.Close w u now with
      | .error f => .error f
      | .ok (w2, _) => .ok (w2, false) := by
  simp only [User.handleStep, hopen, User.readLine, ReadLine, hin, Bool.false_eq_true, if_false]

/-- C6 (as amended): let the session `b` be open, let its current room exist
and hold `b` under no other name than the one `b` has now.  When `b` closes,
by `quit` or at end of stream, the member map of that room loses the entry of
that name and no longer holds `b`, the history gets the notice `<name> left.`
of the system identity as its last element, every remaining member whose name
is not `server` and who does not ignore `server` is sent the rendered notice
(once per entry that holds it), and a session that is not a remaining member
is sent nothing. -/
theorem close_leaves_room_and_notifies (w : World) (b : Nat) (now : String) (r : Room)
    (hopen : (w.users b).closed = false)
    (hr : w.rooms.Load (w.users b).CurrentRoom = some r)
    (hone : ∀ k, r.users.Load k = some b → k = (w.users b).Name) :
    ∃ w1 err r1, User.parseCommand w b "quit" now = .ok (w1, err) ∧
      ((w.users b).inbox = [] → User.handleStep w b now = .ok (w1, false)) ∧
      w1.rooms.Load (w.users b).CurrentRoom = some r1 ∧
      r1.users = r.users.Delete (w.users b).Name ∧
      (∀ k, r1.users.Load k ≠ some b) ∧
      r1.msgs = r.msgs ++ [NewMessage ((w.users b).Name ++ " left.") .server now []] ∧
      (∀ j k, r1.users.Load k = some j → (w.users j).Name ≠ "server" →
        ({ UserName := "server" } : Filter) ∉ (w.users j).filters →
        0 < holders r1.users.entries j ∧
        (w1.users j).outbox = (w.users j).outbox ++ List.replicate (holders r1.users.entries j)
          (now ++ " - " ++ "server" ++ ": " ++ ((w.users b).Name ++ " left."))) ∧
      (∀ j, (∀ k, r1.users.Load k ≠ some j) → (w1.users j).outbox = (w.users j).outbox) := by
  obtain ⟨w1, err, hC, hrooms, hout⟩ := Close_present w b now r hopen hr
  have hgone : ∀ k, (r.users.Delete (w.users b).Name).Load k ≠ some b := by
    intro k hk
    rw [GoMap.Load_Delete] at hk
    by_cases hkn : k = (w.users b).Name
    · simp [hkn] at hk
    · rw [if_neg hkn] at hk
      exact hkn (hone k hk)
  refine ⟨w1, err, ⟨r.Name, r.msgs ++ [leftNotice w.users b now],
    r.users.Delete (w.users b).Name⟩, ?_, ?_, ?_, rfl, hgone, rfl, ?_, ?_⟩
  · rw [parseCommand_quit, hC]
  · intro hin
    rw [handleStep_eof w b now hopen hin, hC]
  · rw [hrooms, GoMap.Load_Store, if_pos rfl]
    rfl
  · intro j k hk hn hf
    refine ⟨holders_pos_of_Load _ k j hk, ?_⟩
    rw [hout j, leftNotice_CanSend w.users b j now hn hf, if_pos rfl]
    rfl
  · intro j hj
    rw [hout j]
    have : holders (r.users.Delete (User.GetName w.users (.session b))).entries j = 0 :=
      holders_zero_of_no_Load _ j hj
    rw [this]
    simp

/-- Witness for C6 (as amended): bob of the sample world issues `quit`. -/
theorem close_leaves_room_and_notifies_witness :
    (exWorld.users 2).closed = false ∧
    exWorld.rooms.Load (exWorld.users 2).CurrentRoom = some exRoom ∧
    ∃ w1 err r1, User.parseCommand exWorld 2 "quit" "t1" = .ok (w1, err) ∧
      w1.rooms.Load (exWorld.users 2).CurrentRoom = some r1 ∧
      (∀ k, r1.users.Load k ≠ some 2) := by
  refine ⟨by decide, by decide, ?_⟩
  obtain ⟨w1, err, r1, h1, -, h3, -, h5, -⟩ :=
    close_leaves_room_and_notifies exWorld 2 "t1" exRoom (by decide) (by decide) (by
      intro k hk
      have hmem := lookupKey_mem k 2 exRoom.users.entries hk
      simp [exRoom] at hmem
      simp [hmem, exWorld, exHeap, exUser])
  exact ⟨w1, err, r1, h1, h3, h5⟩

/-- Counterexample to C6 as stated.  First run: bob renames himself to rob and
then quits; the member map of the lobby still holds bob's session, under the
old name.  Second run: alice ignores `server`, then bob quits; alice, who
remains a member, is sent no notice. -/
theorem close_after_rename_stays_member_and_notice_is_filtered :
    (do let (w1, _) ← User.parseCommand exWorld 2 "name rob" "t1"
        let (w2, _) ← User.parseCommand w1 2 "quit" "t2"
        pure ((w2.rooms.Load "lobby").map (fun r => r.users.entries)))
      = Except.ok (some [("alice", 1), ("bob", 2), ("carol", 3)]) ∧
    (do let (w1, _) ← User.parseCommand exWorld 1 "ignore server" "t1"
        let (w2, _) ← User.parseCommand w1 2 "quit" "t2"
        pure ((w2.rooms.Load "lobby").map (fun r => r.users.entries), (w2.users 1).outbox))
      = Except.ok (some [("alice", 1), ("carol", 3)], []) := by
  constructor <;> rfl

theorem splitOnSpace_no_space (l : List Char) (h : ' ' ∉ l) : splitOnSpace l = [l] := by
  induction l with
  | nil => rfl
  | cons c t ih =>
    have hc : ¬ c = ' ' := fun e => h (by simp [e])
    have ht : ' ' ∉ t := fun e => h (List.mem_cons_of_mem _ e)
    simp [splitOnSpace, ih ht, hc]

theorem splitOnSpace_cons (c : Char) (cs p : List Char) (ps : List (List Char))
    (h : splitOnSpace cs = p :: ps) :
    splitOnSpace (c :: cs) = if c = ' ' then [] :: p :: ps else (c :: p) :: ps := by
  simp [splitOnSpace, h]

theorem Split_name_arg (n : String) (h : ' ' ∉ n.data) : Split ("name " ++ n) = ["name", n] := by
  have hd : ("name " ++ n).data = 'n' :: 'a' :: 'm' :: 'e' :: ' ' :: n.data := by
    rw [String.data_append]; rfl
  have h0 := splitOnSpace_no_space n.data h
  have h1 := splitOnSpace_cons ' ' _ _ _ h0
  rw [if_pos rfl] at h1
  have h2 := splitOnSpace_cons 'e' _ _ _ h1
  rw [if_neg (by decide)] at h2
  have h3 := splitOnSpace_cons 'm' _ _ _ h2
  rw [if_neg (by decide)] at h3
  have h4 := splitOnSpace_cons 'a' _ _ _ h3
  rw [if_neg (by decide)] at h4
  have h5 := splitOnSpace_cons 'n' _ _ _ h4
  rw [if_neg (by decide)] at h5
  rw [Split, hd, h5]
  rfl

/-- C2 (the code at the failing input): bob, a member of the sample lobby,
renames himself to rob and issues `room lobby`.  The member map then holds his
session under both names, and one `Room.BroadCast` of a line by alice sends
the rendered text to that session twice (and to carol once). -/
theorem broadCast_sends_twice_after_rename_and_rejoin :
    (do let (w1, _) ← User.parseCommand exWorld 2 "name rob" "t1"
        let (w2, _) ← User.parseCommand w1 2 "room lobby" "t2"
        match w2.rooms.Load "lobby" with
        | none => pure none
        | some r =>
          pure (some (r.users.entries, (w2.users 2).outbox,
            ((Room.BroadCast w2.users r (NewMessage "hi" (.session 1) "t3" []) []).1 2).outbox,
            (w2.users 3).outbox,
            ((Room.BroadCast w2.users r (NewMessage "hi" (.session 1) "t3" []) []).1 3).outbox)))
      = Except.ok (some (
          [("alice", 1), ("bob", 2), ("carol", 3), ("rob", 2)],
          ["name changed.", "t2 - server: rob left.", "t2 - server: rob left."],
          ["name changed.", "t2 - server: rob left.", "t2 - server: rob left.",
            "t3 - alice: hi", "t3 - alice: hi"],
          ["t1 - rob: changed name to rob", "t2 - server: rob left.", "t2 - server: rob joined."],
          ["t1 - rob: changed name to rob", "t2 - server: rob left.", "t2 - server: rob joined.",
            "t3 - alice: hi"])) := by
  rfl

/-- C7 (as amended): for a new name `n` without a space, the command `name n`,
issued by a session whose current room exists, completes, sets the session's
name to `n` and appends exactly one message to the history of that room:
content `changed name to n`, author the session itself, whose name now reads
`n`.  The members of that room, every other room and the set of rooms stay as
they were. -/
theorem name_command_renames_and_announces (w : World) (u : Nat) (n now : String) (r : Room)
    (hn : ' ' ∉ n.data)
    (hr : w.rooms.Load (w.users u).CurrentRoom = some r) :
    ∃ w1 err, User.parseCommand w u ("name " ++ n) now = .ok (w1, err) ∧
      (w1.users u).Name = n ∧
      w1.rooms.Load (w.users u).CurrentRoom = some
        { r with msgs := r.msgs ++ [NewMessage ("changed name to " ++ n) (.session u) now []] } ∧
      User.GetName w1.users (NewMessage ("changed name to " ++ n) (.session u) now []).Author = n ∧
      (∀ k, k ≠ (w.users u).CurrentRoom → w1.rooms.Load k = w.rooms.Load k) ∧
      w1.rooms.keys = w.rooms.keys :=
  name_command_first_argument w u ("name " ++ n) n now [] r (Split_name_arg n hn) hr

/-- Witness for C7 (as amended): bob, in the sample lobby, issues `name rob`. -/
theorem name_command_renames_and_announces_witness :
    ' ' ∉ "rob".data ∧
    exWorld.rooms.Load (exWorld.users 2).CurrentRoom = some exRoom ∧
    ∃ w1 err, User.parseCommand exWorld 2 ("name " ++ "rob") "t1" = .ok (w1, err) ∧
      (w1.users 2).Name = "rob" :=
  ⟨by decide, by decide, by
    obtain ⟨w1, err, h1, h2, -⟩ :=
      name_command_renames_and_announces exWorld 2 "rob" "t1" exRoom (by decide) (by decide)
    exact ⟨w1, err, h1, h2⟩⟩

/-- Counterexample to C7 as stated: bob issues `name John Smith`; his name
becomes `John` and the notice reads `changed name to John`. -/
theorem name_command_takes_first_word_only :
    (do let (w1, _) ← User.parseCommand exWorld 2 "name John Smith" "t1"
        pure ((w1.users 2).Name, (w1.rooms.Load "lobby").map (fun r => r.msgs.map (fun m => m.Content))))
      = Except.ok ("John", some ["changed name to John"]) := by
  rfl

/-! ## Operations that write to outboxes only -/

theorem OutboxOnly.selfOutbox (h : Heap) : OutboxOnly h h := fun _ => rfl

theorem OutboxOnly.chainOutbox {h h1 h2 : Heap} (a : OutboxOnly h h1) (b : OutboxOnly h1 h2) :
    OutboxOnly h h2 := by
  intro j
  rw [b j, a j]
  rfl

theorem OutboxOnly.selfOutboxIdentity {h h1 : Heap} (a : OutboxOnly h h1) : SameIdentity h h1 := by
  intro j
  rw [a j]
  exact ⟨rfl, rfl⟩

theorem Send_outboxOnly (h : Heap) (u : Nat) (s : String) : OutboxOnly h (User.Send h u s).1 := by
  intro j
  rw [Send_apply]
  by_cases hj : j = u
  · subst hj; simp [User.withOutbox]
  · simp [hj, User.withOutbox]

theorem BroadCast_frame (h : Heap) (r : Room) (m : Message) (fs : List Filter) :
    OutboxOnly h (Room.BroadCast h r m fs).1 :=
  fun j => BroadCast_outboxOnly h r m fs j

theorem catchupRange_outboxOnly (u : Nat) (msgs : List Message) (h : Heap) :
    OutboxOnly h (catchupRange u msgs h).1 := by
  intro j
  rw [catchupRange_apply]
  by_cases hj : j = u
  · subst hj; simp [User.withOutbox]
  · simp [hj, User.withOutbox]

theorem AddUser_outboxOnly (h : Heap) (r : Room) (u : Nat) (now : String) :
    OutboxOnly h (Room.AddUser h r u now).1 := by
  cases hl : r.users.Load (User.GetName h (.session u)) with
  | some v => rw [AddUser_member h r u v now hl]; exact OutboxOnly.selfOutbox h
  | none =>
    rw [AddUser_new h r u now hl]
    exact (BroadCast_frame h _ _ _).chainOutbox (catchupRange_outboxOnly _ _ _)

theorem RemoveUser_outboxOnly (h : Heap) (r : Room) (u : Nat) (now : String) :
    OutboxOnly h (Room.RemoveUser h r u now).1 :=
  BroadCast_frame h _ _ []

/-! ## Lemmas for joining -/

theorem storeKey_of_absent {α : Type} (k : String) (v : α) (l : List (String × α))
    (hk : lookupKey k l = none) : storeKey k v l = l ++ [(k, v)] := by
  induction l with
  | nil => rfl
  | cons e t ih =>
    obtain ⟨k1, v1⟩ := e
    by_cases h1 : k1 = k
    · simp [lookupKey, h1] at hk
    · simp only [lookupKey, h1, if_false] at hk
      simp [storeKey, h1, ih hk]

theorem holders_append_one (l : List (String × Nat)) (k : String) (u j : Nat) :
    holders (l ++ [(k, u)]) j = holders l j + if u = j then 1 else 0 := by
  simp [holders, List.countP_append, List.countP_cons]

theorem holders_Store_new (m : GoMap Nat) (k : String) (u j : Nat)
    (hk : m.Load k = none) (hj : j ≠ u) :
    holders (m.Store k u).entries j = holders m.entries j := by
  have hu : ¬ u = j := fun e => hj e.symm
  simp [GoMap.Store, storeKey_of_absent k u m.entries hk, holders_append_one, hu]

theorem joinNotice_CanSend_iff (h : Heap) (b a : Nat) (now : String) :
    (joinNotice h b now).CanSend h (.session a) = true ↔
      (h a).Name ≠ "server" ∧ ({ UserName := "server" } : Filter) ∉ (h a).filters ∧
        (h a).Name ≠ (h b).Name := by
  rw [CanSend_eq_true_iff]
  simp [joinNotice, NewMessage, User.GetName, deref, serverUser]

/-- C11 (as amended): when the name of the session `b` is not yet a key of the
member map, `Room.AddUser` enters `b` under its name, leaves the other entries
alone and appends exactly one message to the history, the notice
`<name> joined.` of the system identity.  The visibility predicate accepts
another session for that notice exactly when its name is not `server`, it does
not ignore `server` and its name is not the name of `b`; every such member is
sent the notice, once per entry that holds it, and the other sessions are sent
nothing.  The session `b` is sent no notice: the broadcast skips it, and the
replay sends it accepted messages of the earlier history only. -/
theorem addUser_enters_and_announces (h : Heap) (r : Room) (b : Nat) (now : String)
    (hnew : r.users.Load (h b).Name = none) :
    (Room.AddUser h r b now).2.users.Load (h b).Name = some b ∧
    (∀ k, k ≠ (h b).Name → (Room.AddUser h r b now).2.users.Load k = r.users.Load k) ∧
    (Room.AddUser h r b now).2.msgs = r.msgs ++
      [NewMessage ((h b).Name ++ " joined.") .server now [{ UserName := (h b).Name }]] ∧
    (∀ a, (joinNotice h b now).CanSend h (.session a) = true ↔
      (h a).Name ≠ "server" ∧ ({ UserName := "server" } : Filter) ∉ (h a).filters ∧
        (h a).Name ≠ (h b).Name) ∧
    (∀ a, a ≠ b → ((Room.AddUser h r b now).1 a).outbox = (h a).outbox ++ List.replicate
      (if (joinNotice h b now).CanSend h (.session a) = true then holders r.users.entries a else 0)
      (now ++ " - " ++ "server" ++ ": " ++ ((h b).Name ++ " joined."))) ∧
    (∀ a k, a ≠ b → r.users.Load k = some a →
      (joinNotice h b now).CanSend h (.session a) = true →
      (now ++ " - " ++ "server" ++ ": " ++ ((h b).Name ++ " joined.")) ∈
        ((Room.AddUser h r b now).1 a).outbox) ∧
    (joinNotice h b now).CanSend h (.session b) = false ∧
    ((Room.AddUser h r b now).1 b).outbox = (h b).outbox ++
      upTo (h b).sendsToFailure
        ((r.msgs.filter (fun m => m.CanSend h (.session b))).map (Message.String h)) := by
  have hout : ∀ a, a ≠ b → ((Room.AddUser h r b now).1 a).outbox = (h a).outbox ++ List.replicate
      (if (joinNotice h b now).CanSend h (.session a) = true then holders r.users.entries a else 0)
      (now ++ " - " ++ "server" ++ ": " ++ ((h b).Name ++ " joined.")) := by
    intro a ha
    rw [AddUser_new_other h r b a now hnew ha, BroadCast_apply]
    have := holders_Store_new r.users (h b).Name b a hnew ha
    simp only [User.GetName, deref] at this ⊢
    rw [this]
    rfl
  refine ⟨?_, ?_, ?_, fun a => joinNotice_CanSend_iff h b a now, hout, ?_, joinNotice_rejects_joiner h b now, ?_⟩
  · rw [AddUser_new_room h r b now hnew]
    simp [GoMap.Load_Store, User.GetName, deref]
  · intro k hk
    rw [AddUser_new_room h r b now hnew]
    simp [GoMap.Load_Store, User.GetName, deref, hk]
  · rw [AddUser_new_room h r b now hnew]
    rfl
  · intro a k ha hk hc
    rw [hout a ha, if_pos hc]
    have hp := holders_pos_of_Load r.users k a hk
    obtain ⟨n, hn⟩ := Nat.exists_eq_succ_of_ne_zero (Nat.pos_iff_ne_zero.1 hp)
    rw [hn, List.replicate_succ]
    simp
  · rw [AddUser_new_self h r b now hnew]
    rfl

/-- Witness for C11 (as amended): dave joins the sample lobby. -/
theorem addUser_enters_and_announces_witness :
    exRoom.users.Load (exHeapDave 4).Name = none ∧
    (Room.AddUser exHeapDave exRoom 4 "t1").2.users.Load (exHeapDave 4).Name = some 4 ∧
    "t1 - server: dave joined." ∈ ((Room.AddUser exHeapDave exRoom 4 "t1").1 1).outbox := by
  have hw := addUser_enters_and_announces exHeapDave exRoom 4 "t1" (by decide)
  exact ⟨by decide, hw.1, hw.2.2.2.2.2.1 1 "alice" (by decide) (by decide) (by decide)⟩

/-- Counterexample to C11 as stated: alice ignores `server`; when dave joins
the lobby she, another member of the room, is not sent the notice, while bob
is. -/
theorem join_notice_is_filtered :
    (do let (w1, _) ← User.parseCommand exWorldDave 1 "ignore server" "t1"
        let a := Room.AddUser w1.users exRoom 4 "t2"
        pure (a.2.users.entries, (a.1 1).outbox, (a.1 2).outbox))
      = Except.ok ([("alice", 1), ("bob", 2), ("carol", 3), ("dave", 4)], [],
          ["t2 - server: dave joined."]) := by
  rfl

/-- C13 (the code at the failing input): dave is connected but in no room;
`RoomManager.LeaveRoom` of dave from the lobby appends `dave left.` to the
history of the lobby and sends the notice to its members. -/
theorem leaveRoom_of_non_member_announces :
    (∀ k, exRoom.users.Load k ≠ some 4) ∧
    ((RoomManager.LeaveRoom exWorldDave 4 "lobby" "t1").rooms.Load "lobby").map
      (fun r => (r.users.entries, r.msgs.map (fun m => m.Content)))
      = some ([("alice", 1), ("bob", 2), ("carol", 3)], ["dave left."]) ∧
    ((RoomManager.LeaveRoom exWorldDave 4 "lobby" "t1").users 1).outbox
      = ["t1 - server: dave left."] := by
  refine ⟨?_, by rfl, by rfl⟩
  intro k hk
  have hmem := lookupKey_mem k 4 exRoom.users.entries hk
  simp [exRoom] at hmem

/-- C15: whichever sessions have a failing connection, `Room.BroadCast` leaves
the same room (history with the message appended, same members) and makes the
same `Send` calls: letting the connections of the sessions break at any points
(`fail j` for the session `j`, `some 0` for one that fails from the start)
changes no outbox of the result. -/
theorem broadCast_unaffected_by_write_failures (h : Heap) (r : Room) (m : Message)
    (fs : List Filter) (fail : Nat → Option Nat) :
    (Room.BroadCast (fun j => { h j with failFrom := fail j }) r m fs).2
      = (Room.BroadCast h r m fs).2 ∧
    (Room.BroadCast (fun j => { h j with failFrom := fail j }) r m fs).2.msgs = r.msgs ++ [m] ∧
    (∀ j, ((Room.BroadCast (fun j => { h j with failFrom := fail j }) r m fs).1 j).outbox
      = ((Room.BroadCast h r m fs).1 j).outbox) ∧
    (∀ j, ((Room.BroadCast (fun j => { h j with failFrom := fail j }) r m fs).1 j).outbox
      = (h j).outbox ++ List.replicate
          (if m.CanSend h (.session j) = true then holders r.users.entries j else 0)
          (m.String h)) := by
  have hs : SameIdentity h (fun j => { h j with failFrom := fail j }) := fun j => ⟨rfl, rfl⟩
  have hout : ∀ j, ((Room.BroadCast (fun j => { h j with failFrom := fail j }) r m fs).1 j).outbox
      = (h j).outbox ++ List.replicate
          (if m.CanSend h (.session j) = true then holders r.users.entries j else 0)
          (m.String h) := by
    intro j
    rw [BroadCast_apply, hs.CanSend, hs.String]
    rfl
  refine ⟨rfl, rfl, ?_, hout⟩
  intro j
  rw [hout j, BroadCast_apply]
  rfl

/-- C16 (the code at the failing input): `Room.BroadCast` of a line by alice
with the extra filter `bob` still sends the line to bob; the filters passed to
it are never read. -/
theorem broadCast_ignores_given_filters :
    ((Room.BroadCast exHeap exRoom (NewMessage "hi" (.session 1) "t1" [])
      [{ UserName := "bob" }]).1 2).outbox = ["t1 - alice: hi"] ∧
    ∀ (h : Heap) (r : Room) (m : Message) (fs : List Filter),
      Room.BroadCast h r m fs = Room.BroadCast h r m [] :=
  ⟨by rfl, fun _ _ _ _ => rfl⟩

/-! ## Lemmas on changing room -/

theorem UserJoinRoom_eq (w : World) (u : Nat) (n now : String) :
    User.JoinRoom w u n now = RoomManager.JoinRoom (leftAndRetargeted w u n now) u n now := rfl

theorem leftAndRetargeted_rooms (w : World) (u : Nat) (n now : String) :
    (leftAndRetargeted w u n now).rooms =
      (if (w.users u).CurrentRoom = "" then w
        else RoomManager.LeaveRoom w u (w.users u).CurrentRoom now).rooms := rfl

theorem leftAndRetargeted_CurrentRoom (w : World) (u : Nat) (n now : String) :
    ((leftAndRetargeted w u n now).users u).CurrentRoom = n := by
  simp [leftAndRetargeted, Heap.set]

theorem LeaveRoom_frame (w : World) (u : Nat) (n now : String) :
    OutboxOnly w.users (RoomManager.LeaveRoom w u n now).users :=
  fun j => LeaveRoom_outboxOnly w u n now j

theorem LeaveRoom_Load_other (w : World) (u : Nat) (c n now : String) (hn : n ≠ c) :
    (RoomManager.LeaveRoom w u c now).rooms.Load n = w.rooms.Load n := by
  cases hc : w.rooms.Load c with
  | none => rw [LeaveRoom_absent w u c now hc]
  | some r =>
    rw [LeaveRoom_present w u c now r hc]
    simp [GoMap.Load_Store, hn]

theorem LeaveRoom_Load_self (w : World) (u : Nat) (c now : String) (r : Room)
    (hc : w.rooms.Load c = some r) :
    (RoomManager.LeaveRoom w u c now).rooms.Load c = some
      ⟨r.Name, r.msgs ++ [leftNotice w.users u now], r.users.Delete (w.users u).Name⟩ := by
  rw [LeaveRoom_present w u c now r hc]
  simp only [GoMap.Load_Store, if_true]
  rfl

theorem parseCommand_room (w : World) (u : Nat) (cmd n now : String) (rest : List String)
    (rn : Room) (hs : Split cmd = "room" :: n :: rest) (hn : w.rooms.Load n = some rn) :
    User.parseCommand w u cmd now = .ok (User.JoinRoom w u n now) := by
  simp [User.parseCommand, hs, RoomManager.RoomExists, hn]

theorem leftAndRetargeted_Name (w : World) (u : Nat) (n now : String) :
    ((leftAndRetargeted w u n now).users u).Name = (w.users u).Name := by
  simp only [leftAndRetargeted, Heap.set, if_true]
  split
  · rfl
  · rw [LeaveRoom_frame w u _ now u]
    rfl

theorem Delete_no_holder (m : GoMap Nat) (k : String) (u : Nat)
    (hone : ∀ k2, m.Load k2 = some u → k2 = k) : ∀ k2, (m.Delete k).Load k2 ≠ some u := by
  intro k2 hk
  rw [GoMap.Load_Delete] at hk
  by_cases hkn : k2 = k
  · simp [hkn] at hk
  · rw [if_neg hkn] at hk
    exact hkn (hone k2 hk)

/-- C12 (as amended): let the current room `R` of the session `u` be named by
a non-empty text, exist and hold `u` under no other name than the one `u` has
now, and let `n` be the name of another existing room.  A `room` command with
argument `n` completes without error, leaves `CurrentRoom` equal to `n` and
removes `u` from the member map of `R`.  When the name of `u` is not yet a key
of the member map of `n`, it enters `u` there under that name; when the name
is taken, the room `n` stays as it was. -/
theorem room_command_changes_room (w : World) (u : Nat) (cmd n now : String)
    (rest : List String) (r rn : Room)
    (hs : Split cmd = "room" :: n :: rest)
    (hcur : (w.users u).CurrentRoom ≠ "")
    (hr : w.rooms.Load (w.users u).CurrentRoom = some r)
    (hone : ∀ k, r.users.Load k = some u → k = (w.users u).Name)
    (hn : w.rooms.Load n = some rn)
    (hne : n ≠ (w.users u).CurrentRoom) :
    ∃ w1 r1 rn1, User.parseCommand w u cmd now = .ok (w1, none) ∧
      (w1.users u).CurrentRoom = n ∧
      w1.rooms.Load (w.users u).CurrentRoom = some r1 ∧
      r1.users = r.users.Delete (w.users u).Name ∧
      (∀ k, r1.users.Load k ≠ some u) ∧
      w1.rooms.Load n = some rn1 ∧
      (rn.users.Load (w.users u).Name = none → rn1.users.Load (w.users u).Name = some u) ∧
      (∀ v, rn.users.Load (w.users u).Name = some v → rn1 = rn) := by
  have hW : (leftAndRetargeted w u n now).rooms.Load n = some rn := by
    rw [leftAndRetargeted_rooms, if_neg hcur, LeaveRoom_Load_other w u _ n now hne]
    exact hn
  have hWR : (leftAndRetargeted w u n now).rooms.Load (w.users u).CurrentRoom = some
      ⟨r.Name, r.msgs ++ [leftNotice w.users u now], r.users.Delete (w.users u).Name⟩ := by
    rw [leftAndRetargeted_rooms, if_neg hcur]
    exact LeaveRoom_Load_self w u _ now r hr
  have hne2 : ¬ (w.users u).CurrentRoom = n := fun e => hne e.symm
  have hname := leftAndRetargeted_Name w u n now
  have hJ := JoinRoom_present (leftAndRetargeted w u n now) u n now rn hW
  refine ⟨(RoomManager.JoinRoom (leftAndRetargeted w u n now) u n now).1,
    ⟨r.Name, r.msgs ++ [leftNotice w.users u now], r.users.Delete (w.users u).Name⟩,
    (Room.AddUser (leftAndRetargeted w u n now).users rn u now).2, ?_, ?_, ?_, rfl,
    Delete_no_holder r.users _ u hone, ?_, ?_, ?_⟩
  · rw [parseCommand_room w u cmd n now rest rn hs hn, UserJoinRoom_eq, hJ]
  · rw [hJ]
    simp only []
    rw [AddUser_outboxOnly (leftAndRetargeted w u n now).users rn u now u]
    exact leftAndRetargeted_CurrentRoom w u n now
  · rw [hJ]
    simp only [GoMap.Load_Store, if_neg hne2]
    exact hWR
  · rw [hJ]
    simp only [GoMap.Load_Store, if_true]
  · intro hfree
    have hfree2 : rn.users.Load (User.GetName (leftAndRetargeted w u n now).users (.session u))
        = none := by
      simp only [User.GetName, deref, hname]; exact hfree
    rw [AddUser_new_room _ rn u now hfree2]
    simp [GoMap.Load_Store, User.GetName, deref, hname]
  · intro v hv
    have hv2 : rn.users.Load (User.GetName (leftAndRetargeted w u n now).users (.session u))
        = some v := by
      simp only [User.GetName, deref, hname]; exact hv
    rw [AddUser_member _ rn u v now hv2]

/-- Witness for C12 (as amended): carol of the two-room sample world issues
`room den`. -/
theorem room_command_changes_room_witness :
    Split "room den" = "room" :: "den" :: [] ∧ (exWorld2.users 3).CurrentRoom ≠ "" ∧
    exWorld2.rooms.Load (exWorld2.users 3).CurrentRoom = some exRoom ∧
    exWorld2.rooms.Load "den" = some exRoomDen ∧
    ∃ w1 rn1, User.parseCommand exWorld2 3 "room den" "t1" = .ok (w1, none) ∧
      (w1.users 3).CurrentRoom = "den" ∧
      w1.rooms.Load "den" = some rn1 ∧ rn1.users.Load "carol" = some 3 := by
  refine ⟨by decide, by decide, by decide, by decide, ?_⟩
  obtain ⟨w1, r1, rn1, h1, h2, -, -, -, h6, h7, -⟩ :=
    room_command_changes_room exWorld2 3 "room den" "den" "t1" [] exRoom exRoomDen
      (by decide) (by decide) (by decide) (by
        intro k hk
        have hmem := lookupKey_mem k 3 exRoom.users.entries hk
        simp [exRoom] at hmem
        rw [hmem]
        decide) (by decide) (by decide)
  exact ⟨w1, rn1, h1, h2, h6, h7 (by decide)⟩

/-- Counterexample to C12 as stated, in the two-room sample world.  First run:
bob issues `room den`, where another bob is a member; he leaves the lobby but
the member map of `den` still holds the other bob only.  Second run: bob
renames himself to rob and issues `room den`; the lobby still holds him under
the old name.  Third run: bob issues `room ` and answers `y`, which creates
and joins the room of the empty name, then issues `room lobby`; the room of
the empty name still holds him. -/
theorem room_change_misses_member_sets :
    (do let (w1, _) ← User.parseCommand exWorld2 2 "room den" "t1"
        pure ((w1.users 2).CurrentRoom,
          (w1.rooms.Load "lobby").map (fun r => r.users.entries),
          (w1.rooms.Load "den").map (fun r => r.users.entries)))
      = Except.ok ("den", some [("alice", 1), ("carol", 3)], some [("bob", 5)]) ∧
    (do let (w1, _) ← User.parseCommand exWorld2 2 "name rob" "t1"
        let (w2, _) ← User.parseCommand w1 2 "room den" "t2"
        pure ((w2.users 2).CurrentRoom,
          (w2.rooms.Load "lobby").map (fun r => r.users.entries),
          (w2.rooms.Load "den").map (fun r => r.users.entries)))
      = Except.ok ("den", some [("alice", 1), ("bob", 2), ("carol", 3)],
          some [("bob", 5), ("rob", 2)]) ∧
    (do let (w1, _) ← User.parseCommand exWorld2 2 "room " "t1"
        let (w2, _) ← User.parseCommand w1 2 "room lobby" "t2"
        pure ((w1.users 2).CurrentRoom, (w1.rooms.Load "").map (fun r => r.users.entries),
          (w2.users 2).CurrentRoom, (w2.rooms.Load "").map (fun r => r.users.entries)))
      = Except.ok ("", some [("bob", 2)], "lobby", some [("bob", 2)]) := by
  refine ⟨by rfl, by rfl, by rfl⟩

/-! ## Lemmas on reading a line and on the loop -/

theorem Heap.set_set (h : Heap) (u : Nat) (a b : User) : (h.set u a).set u b = h.set u b := by
  funext j
  by_cases hj : j = u <;> simp [Heap.set, hj]

theorem ReadLine_short (h : Heap) (u : Nat) (s : String) (rest : List String)
    (hin : (h u).inbox = s :: rest) (hl : s.length < bufSize) :
    ReadLine h u = (h.set u { h u with inbox := rest }, s, false, none) := by
  simp [ReadLine, hin, hl]

theorem ReadLine_long (h : Heap) (u : Nat) (s : String) (rest : List String)
    (hin : (h u).inbox = s :: rest) (hl : ¬ s.length < bufSize) :
    ReadLine h u = (h.set u { h u with inbox := String.mk (s.data.drop bufSize) :: rest },
      String.mk (s.data.take bufSize), true, none) := by
  simp [ReadLine, hin, hl]

theorem readLine_whole (h : Heap) (u : Nat) (s : String) (rest : List String)
    (hin : (h u).inbox = s :: rest) (hl : s.length < bufSize) :
    User.readLine h u = (h.set u { h u with inbox := rest }, s, none) := by
  simp [User.readLine, ReadLine_short h u s rest hin hl]

theorem readLine_long (h : Heap) (u : Nat) (s : String) (rest : List String)
    (hin : (h u).inbox = s :: rest) (hl : ¬ s.length < bufSize) :
    User.readLine h u =
      match ReadLine (h.set u { h u with inbox := String.mk (s.data.drop bufSize) :: rest, readAhead := (h u).readAhead.tail }) u with
      | (h2, _, _, some err2) => (h2, "", some err2)
      | (h2, suf, _, none) =>
        (h2, String.mk ((s.data.drop bufSize ++ '\n' :: streamOf rest).take
            (refilled suf ((h u).readAhead.headD 0)
              (s.data.drop bufSize ++ '\n' :: streamOf rest).length) ++
          (s.data.take bufSize).drop
            (refilled suf ((h u).readAhead.headD 0)
              (s.data.drop bufSize ++ '\n' :: streamOf rest).length)) ++ suf, none) := by
  simp only [User.readLine, ReadLine_long h u s rest hin hl]
  simp only [Heap.set, if_true, streamOf, Heap.set_set]

theorem readLine_refilled (h : Heap) (u : Nat) (s : String) (rest : List String)
    (hin : (h u).inbox = s :: rest) (h1 : bufSize ≤ s.length) (h2 : s.length < 2 * bufSize) :
    User.readLine h u =
      (h.set u { h u with inbox := rest, readAhead := (h u).readAhead.tail },
        String.mk ((s.data.drop bufSize ++ '\n' :: streamOf rest).take
            (refilled (String.mk (s.data.drop bufSize)) ((h u).readAhead.headD 0)
              (s.data.drop bufSize ++ '\n' :: streamOf rest).length) ++
          (s.data.take bufSize).drop
            (refilled (String.mk (s.data.drop bufSize)) ((h u).readAhead.headD 0)
              (s.data.drop bufSize ++ '\n' :: streamOf rest).length)) ++
          String.mk (s.data.drop bufSize), none) := by
  have hl : ¬ s.length < bufSize := by omega
  have hs : (String.mk (s.data.drop bufSize)).length < bufSize := by
    simp only [String.length, List.length_drop] at *
    omega
  rw [readLine_long h u s rest hin hl,
    ReadLine_short _ u (String.mk (s.data.drop bufSize)) rest (by simp [Heap.set]) hs]
  simp only [Heap.set_set]
  simp [Heap.set]

theorem readLine_cut (h : Heap) (u : Nat) (s : String) (rest : List String)
    (hin : (h u).inbox = s :: rest) (hl : 2 * bufSize ≤ s.length) :
    User.readLine h u =
      (h.set u { h u with inbox := String.mk (s.data.drop (2 * bufSize)) :: rest, readAhead := (h u).readAhead.tail },
        String.mk (List.take bufSize (s.data.drop bufSize) ++ List.take bufSize (s.data.drop bufSize)),
        none) := by
  have h1 : ¬ s.length < bufSize := by omega
  have hlen : bufSize ≤ (s.data.drop bufSize).length := by
    simp only [String.length, List.length_drop] at *
    omega
  have h2 : ¬ (String.mk (s.data.drop bufSize)).length < bufSize := by
    simp only [String.length]
    omega
  have hd : List.drop bufSize (List.drop bufSize s.data) = List.drop (2 * bufSize) s.data := by
    rw [List.drop_drop, two_mul]
  have hw : refilled (String.mk (List.take bufSize (s.data.drop bufSize)))
      ((h u).readAhead.headD 0) (s.data.drop bufSize ++ '\n' :: streamOf rest).length
        = bufSize := by
    simp only [refilled, String.length, List.length_take, List.length_append, List.length_cons]
    omega
  have ht : List.take bufSize (s.data.drop bufSize ++ '\n' :: streamOf rest)
      = List.take bufSize (s.data.drop bufSize) := List.take_append_of_le_length hlen
  have hz : List.drop bufSize (List.take bufSize s.data) = [] := by
    apply List.drop_eq_nil_of_le
    rw [List.length_take]
    exact Nat.min_le_left _ _
  rw [readLine_long h u s rest hin h1,
    ReadLine_long _ u (String.mk (s.data.drop bufSize)) rest (by simp [Heap.set]) h2]
  simp only [Heap.set_set, hw, ht, hz, hd, List.append_nil]
  simp only [Heap.set, if_true]
  rfl
theorem handleStep_plain (w : World) (u : Nat) (now content : String) (h1 : Heap)
    (hopen : (w.users u).closed = false)
    (hrd : User.readLine w.users u = (h1, content, none))
    (hne : content ≠ "") (hns : ∀ cs, content.data ≠ '/' :: cs) :
    User.handleStep w u now = .ok ((RoomManager.Broadcast ⟨w.rooms, h1⟩ (h1 u).CurrentRoom
      (NewMessage content (.session u) now [])).1, true) := by
  unfold User.handleStep
  simp only [hopen, hrd, hne, Bool.false_eq_true, if_false]

theorem not_slash_of_head (l : List Char) (h : l.head? ≠ some '/') : ∀ cs, l ≠ '/' :: cs := by
  intro cs e
  rw [e] at h
  exact h rfl

theorem handleStep_message (w : World) (u : Nat) (now content : String)
    (v : User) (r : Room)
    (hopen : (w.users u).closed = false)
    (hrd : User.readLine w.users u = (w.users.set u v, content, none))
    (hvr : v.CurrentRoom = (w.users u).CurrentRoom) (hvc : v.closed = false)
    (hne : content ≠ "") (hns : ∀ cs, content.data ≠ '/' :: cs)
    (hr : w.rooms.Load (w.users u).CurrentRoom = some r) :
    ∃ w1, User.handleStep w u now = .ok (w1, true) ∧
      w1.rooms.Load (w.users u).CurrentRoom = some
        { r with msgs := r.msgs ++ [NewMessage content (.session u) now []] } ∧
      (∀ k, k ≠ (w.users u).CurrentRoom → w1.rooms.Load k = w.rooms.Load k) ∧
      w1.rooms.keys = w.rooms.keys ∧
      (w1.users u).inbox = v.inbox ∧ (w1.users u).closed = false ∧
      (w1.users u).CurrentRoom = (w.users u).CurrentRoom := by
  have hcur : ((w.users.set u v) u).CurrentRoom = (w.users u).CurrentRoom := by
    simp [Heap.set, hvr]
  have hB := Broadcast_present ⟨w.rooms, w.users.set u v⟩
    (w.users u).CurrentRoom (NewMessage content (.session u) now []) r hr
  refine ⟨_, handleStep_plain w u now content _ hopen hrd hne hns, ?_, ?_, ?_, ?_, ?_, ?_⟩
  · rw [hcur, hB]
    simp [GoMap.Load_Store, Room.BroadCast]
  · intro k hk
    rw [hcur, hB]
    simp [GoMap.Load_Store, hk]
  · rw [hcur, hB]
    exact GoMap.keys_Store_of_Load _ _ r _ hr
  · rw [hcur, hB]
    simp only []
    rw [BroadCast_outboxOnly]
    simp [User.withOutbox, Heap.set]
  · rw [hcur, hB]
    simp only []
    rw [BroadCast_outboxOnly]
    simp [User.withOutbox, Heap.set, hvc]
  · rw [hcur, hB]
    simp only []
    rw [BroadCast_outboxOnly]
    simp [User.withOutbox, Heap.set, hvr]

/-- The part of C14 that holds: a session that is not closed reads a non-empty
line `s` that does not begin with `/` and is shorter than the buffer of the
reader; its current room exists.  The turn of the loop appends exactly one
message to the history of that room, with content `s`, the session as author
and no exclusions, and leaves every other room as it was. -/
theorem plain_line_appends_one_message (w : World) (u : Nat) (now s : String)
    (rest : List String) (r : Room)
    (hopen : (w.users u).closed = false)
    (hin : (w.users u).inbox = s :: rest)
    (hl : s.length < bufSize)
    (hne : s ≠ "") (hns : s.data.head? ≠ some '/')
    (hr : w.rooms.Load (w.users u).CurrentRoom = some r) :
    ∃ w1, User.handleStep w u now = .ok (w1, true) ∧
      w1.rooms.Load (w.users u).CurrentRoom = some
        { r with msgs := r.msgs ++ [NewMessage s (.session u) now []] } ∧
      (∀ k, k ≠ (w.users u).CurrentRoom → w1.rooms.Load k = w.rooms.Load k) ∧
      w1.rooms.keys = w.rooms.keys := by
  obtain ⟨w1, h1, h2, h3, h4, -⟩ := handleStep_message w u now s _ r hopen
    (readLine_whole w.users u s rest hin hl) rfl hopen hne (not_slash_of_head _ hns) hr
  exact ⟨w1, h1, h2, h3, h4⟩

/-- An instance: bob of the sample world says `hello`. -/
theorem plain_line_appends_one_message_witness :
    ∃ w1, User.handleStep exWorldHello 2 "t1" = .ok (w1, true) ∧
      w1.rooms.Load "lobby" = some
        { exRoom with msgs := exRoom.msgs ++ [NewMessage "hello" (.session 2) "t1" []] } := by
  obtain ⟨w1, h1, h2, -⟩ := plain_line_appends_one_message exWorldHello 2 "t1" "hello" [] exRoom
    (by decide) (by rfl) (by decide) (by decide) (by decide) (by decide)
  exact ⟨w1, h1, h2⟩

theorem longLine_length : longLine.length = 8193 :=
  List.length_replicate 8193 'a'

theorem longLine_take :
    String.mk (List.take bufSize (longLine.data.drop bufSize) ++
      List.take bufSize (longLine.data.drop bufSize))
    = String.mk (List.replicate 8192 'a') := by
  have hm : min bufSize (8193 - bufSize) = 4096 := by decide
  show String.mk (List.take bufSize (List.drop bufSize (List.replicate 8193 'a')) ++
    List.take bufSize (List.drop bufSize (List.replicate 8193 'a'))) = _
  rw [List.drop_replicate, List.take_replicate, hm, ← List.replicate_add]

theorem longLine_drop : String.mk (longLine.data.drop (2 * bufSize)) = "a" := by
  have hm : 8193 - 2 * bufSize = 1 := by decide
  show String.mk (List.drop (2 * bufSize) (List.replicate 8193 'a')) = _
  rw [List.drop_replicate, hm]
  rfl

/-- C14 (the code at the failing input): bob of the sample world sends a line
of 8193 characters `a`.  The first turn of the loop broadcasts 8192
characters `a` as one message and leaves the last character pending as if it
were a line of its own; the next turn broadcasts it as a second message. -/
theorem long_line_is_cut_in_two :
    (exWorldLong.users 2).inbox = [longLine] ∧ longLine.length = 8193 ∧
    ∃ w1 w2, User.handleStep exWorldLong 2 "t1" = .ok (w1, true) ∧
      User.handleStep w1 2 "t2" = .ok (w2, true) ∧
      w2.rooms.Load "lobby" = some { exRoom with msgs :=
        [NewMessage (String.mk (List.replicate 8192 'a')) (.session 2) "t1" [],
         NewMessage "a" (.session 2) "t2" []] } := by
  refine ⟨rfl, longLine_length, ?_⟩
  have hcut := readLine_cut exWorldLong.users 2 longLine [] rfl
    (by rw [longLine_length]; decide)
  rw [longLine_take, longLine_drop] at hcut
  have hne : String.mk (List.replicate 8192 'a') ≠ "" := by
    intro e
    have h2 : (List.replicate 8192 'a').length = 0 := congrArg String.length e
    rw [List.length_replicate] at h2
    exact absurd h2 (by decide)
  have hns : ∀ cs, (String.mk (List.replicate 8192 'a')).data ≠ '/' :: cs := by
    apply not_slash_of_head
    show (List.replicate 8192 'a').head? ≠ some '/'
    rw [List.head?_replicate]
    decide
  obtain ⟨w1, s1, r1, -, -, i1, c1, cr1⟩ := handleStep_message exWorldLong 2 "t1"
    (String.mk (List.replicate 8192 'a')) _ exRoom rfl hcut rfl rfl hne hns rfl
  have hcr : (w1.users 2).CurrentRoom = "lobby" := cr1
  have hr1 : w1.rooms.Load (w1.users 2).CurrentRoom = some
      { exRoom with msgs := exRoom.msgs ++
        [NewMessage (String.mk (List.replicate 8192 'a')) (.session 2) "t1" []] } := by
    rw [hcr]; exact r1
  obtain ⟨w2, s2, r2, -⟩ := plain_line_appends_one_message w1 2 "t2" "a" [] _ c1 i1
    (by decide) (by decide) (by decide) hr1
  rw [hcr] at r2
  exact ⟨w1, w2, s1, s2, r2⟩

/-- A line that fills the buffer of the reader: bob of the sample world sends
4096 characters `a` and nothing after them.  The second read of
`User.readLine` puts the terminator at the start of the buffer before the
first chunk is copied, and the turn of the loop broadcasts one message whose
content is a line feed and 4095 characters `a`. -/
theorem line_of_buffer_size_is_overwritten :
    (exWorldFull.users 2).inbox = [String.mk (List.replicate 4096 'a')] ∧
    ∃ w1, User.handleStep exWorldFull 2 "t1" = .ok (w1, true) ∧
      w1.rooms.Load "lobby" = some { exRoom with msgs :=
        [NewMessage (String.mk ('\n' :: List.replicate 4095 'a')) (.session 2) "t1" []] } := by
  refine ⟨rfl, ?_⟩
  have hlen : (String.mk (List.replicate 4096 'a')).length = 4096 :=
    List.length_replicate 4096 'a'
  have hrd := readLine_refilled exWorldFull.users 2 (String.mk (List.replicate 4096 'a')) [] rfl
    (by rw [hlen]; decide) (by rw [hlen]; decide)
  have hd : List.drop bufSize (List.replicate 4096 'a') = [] := by
    rw [List.drop_replicate]
    rfl
  have ht : List.drop 1 (List.take bufSize (List.replicate 4096 'a'))
      = List.replicate 4095 'a' := by
    have hm : min bufSize 4096 = 4096 := by decide
    rw [List.take_replicate, hm, List.drop_replicate]
  have hw : refilled (String.mk []) ((exWorldFull.users 2).readAhead.headD 0)
      ([] ++ '\n' :: streamOf []).length = 1 := by decide
  simp only [hd, hw] at hrd
  rw [ht] at hrd
  have hc : String.mk (List.take 1 ([] ++ '\n' :: streamOf []) ++ List.replicate 4095 'a')
      ++ String.mk [] = String.mk ('\n' :: List.replicate 4095 'a') := by
    show String.mk ((List.take 1 ([] ++ '\n' :: streamOf []) ++ List.replicate 4095 'a') ++ [])
      = _
    rw [List.append_nil]
    rfl
  rw [hc] at hrd
  have hne : String.mk ('\n' :: List.replicate 4095 'a') ≠ "" := by
    intro e
    have h2 : ('\n' :: List.replicate 4095 'a').length = 0 := congrArg String.length e
    rw [List.length_cons, List.length_replicate] at h2
    omega
  have hns : ∀ cs, (String.mk ('\n' :: List.replicate 4095 'a')).data ≠ '/' :: cs := by
    apply not_slash_of_head
    decide
  obtain ⟨w1, s1, r1, -⟩ := handleStep_message exWorldFull 2 "t1"
    (String.mk ('\n' :: List.replicate 4095 'a')) _ exRoom rfl hrd rfl rfl hne hns rfl
  exact ⟨w1, s1, r1⟩

/-! ## No session event removes a room -/

theorem RoomsKept.selfKept (a : GoMap Room) : RoomsKept a a := fun _ h => h

theorem RoomsKept.chainKept {a b c : GoMap Room} (x : RoomsKept a b) (y : RoomsKept b c) :
    RoomsKept a c := fun k h => y k (x k h)

theorem RoomsKept.Store (a : GoMap Room) (k : String) (r : Room) : RoomsKept a (a.Store k r) := by
  intro k2 h
  rw [GoMap.Load_Store]
  split
  · rfl
  · exact h

theorem Broadcast_keeps (w : World) (n : String) (m : Message) :
    RoomsKept w.rooms (RoomManager.Broadcast w n m).1.rooms := by
  cases hn : w.rooms.Load n with
  | none => rw [Broadcast_absent w n m hn]; exact RoomsKept.selfKept _
  | some r => rw [Broadcast_present w n m r hn]; exact RoomsKept.Store _ _ _

theorem RMJoinRoom_keeps (w : World) (u : Nat) (n now : String) :
    RoomsKept w.rooms (RoomManager.JoinRoom w u n now).1.rooms := by
  cases hn : w.rooms.Load n with
  | none => rw [JoinRoom_absent w u n now hn]; exact RoomsKept.selfKept _
  | some r => rw [JoinRoom_present w u n now r hn]; exact RoomsKept.Store _ _ _

theorem LeaveRoom_keeps (w : World) (u : Nat) (n now : String) :
    RoomsKept w.rooms (RoomManager.LeaveRoom w u n now).rooms := by
  cases hn : w.rooms.Load n with
  | none => rw [LeaveRoom_absent w u n now hn]; exact RoomsKept.selfKept _
  | some r => rw [LeaveRoom_present w u n now r hn]; exact RoomsKept.Store _ _ _

theorem LeaveRoom_keeps_mk (rs : GoMap Room) (hp : Heap) (u : Nat) (n now : String) :
    RoomsKept rs (RoomManager.LeaveRoom ⟨rs, hp⟩ u n now).rooms :=
  LeaveRoom_keeps ⟨rs, hp⟩ u n now

theorem CreateRoom_keeps (w : World) (n : String) :
    RoomsKept w.rooms (RoomManager.CreateRoom w n).rooms := by
  unfold RoomManager.CreateRoom
  split
  · exact RoomsKept.selfKept _
  · exact RoomsKept.Store _ _ _

theorem CreateRoom_keeps_mk (rs : GoMap Room) (hp : Heap) (n : String) :
    RoomsKept rs (RoomManager.CreateRoom ⟨rs, hp⟩ n).rooms :=
  CreateRoom_keeps ⟨rs, hp⟩ n

theorem SetName_keeps (w : World) (u : Nat) (n now : String) :
    RoomsKept w.rooms (User.SetName w u n now).1.rooms :=
  Broadcast_keeps ⟨w.rooms, w.users.set u { w.users u with Name := n }⟩ _ _

theorem UserJoinRoom_keeps (w : World) (u : Nat) (n now : String) :
    RoomsKept w.rooms (User.JoinRoom w u n now).1.rooms := by
  rw [UserJoinRoom_eq]
  refine RoomsKept.chainKept ?_ (RMJoinRoom_keeps _ u n now)
  rw [leftAndRetargeted_rooms]
  split
  · exact RoomsKept.selfKept _
  · exact LeaveRoom_keeps w u _ now

theorem createRoom_keeps (w : World) (u : Nat) (n : String) :
    RoomsKept w.rooms (User.createRoom w u n).1.rooms := by
  unfold User.createRoom
  split
  · exact RoomsKept.selfKept _
  · simp only []
    split
    · exact RoomsKept.selfKept _
    · exact CreateRoom_keeps_mk w.rooms _ n

theorem KeptBy.ok {α : Type} (a : GoMap Room) (w1 : World) (e : α)
    (h : RoomsKept a w1.rooms) : KeptBy a (.ok (w1, e)) := h

theorem KeptBy.pair {α : Type} (a : GoMap Room) (p : World × α)
    (h : RoomsKept a p.1.rooms) : KeptBy a (.ok p) := h

theorem KeptBy.error {α : Type} (a : GoMap Room) (f : Fault) :
    KeptBy a (.error f : Except Fault (World × α)) := trivial

theorem KeptBy.elim {α : Type} {a : GoMap Room} {x : Except Fault (World × α)} {w1 : World}
    {e : α} (k : KeptBy a x) (h : x = .ok (w1, e)) : RoomsKept a w1.rooms := by
  subst h
  exact k

theorem Close_kept (rs : GoMap Room) (hp : Heap) (u : Nat) (now : String) :
    KeptBy rs (User.Close ⟨rs, hp⟩ u now) := by
  unfold User.Close
  split
  · exact KeptBy.error _ _
  · exact KeptBy.ok _ _ _ (LeaveRoom_keeps_mk rs _ u _ now)

theorem parseCommand_kept (w : World) (u : Nat) (cmd now : String) :
    KeptBy w.rooms (User.parseCommand w u cmd now) := by
  unfold User.parseCommand
  split
  · exact KeptBy.error _ _
  · split
    · split
      · exact KeptBy.error _ _
      · exact KeptBy.pair _ _ (SetName_keeps w u _ now)
    · split
      · split
        · exact KeptBy.ok _ _ _ (RoomsKept.selfKept _)
        · exact KeptBy.ok _ _ _ (RoomsKept.selfKept _)
      · split
        · split
          · exact KeptBy.ok _ _ _ (RoomsKept.selfKept _)
          · split
            · have hc := createRoom_keeps w u
              simp only []
              split
              · rename_i p1 _ _ _ _ w2 err hw2
                have := hc p1
                rw [hw2] at this
                exact KeptBy.ok _ _ _ this
              · rename_i p1 _ _ _ _ w2 hw2
                have := hc p1
                rw [hw2] at this
                exact KeptBy.pair _ _ (this.chainKept (UserJoinRoom_keeps w2 u _ now))
            · exact KeptBy.pair _ _ (UserJoinRoom_keeps w u _ now)
        · split
          · exact KeptBy.ok _ _ _ (RoomsKept.selfKept _)
          · split
            · exact Close_kept w.rooms w.users u now
            · split
              · exact KeptBy.ok _ _ _ (RoomsKept.selfKept _)
              · exact KeptBy.ok _ _ _ (RoomsKept.selfKept _)

theorem Broadcast_keeps_mk (rs : GoMap Room) (hp : Heap) (n : String) (m : Message) :
    RoomsKept rs (RoomManager.Broadcast ⟨rs, hp⟩ n m).1.rooms :=
  Broadcast_keeps ⟨rs, hp⟩ n m

theorem parseCommand_kept_mk (rs : GoMap Room) (hp : Heap) (u : Nat) (cmd now : String) :
    KeptBy rs (User.parseCommand ⟨rs, hp⟩ u cmd now) :=
  parseCommand_kept ⟨rs, hp⟩ u cmd now

theorem handleStep_kept (w : World) (u : Nat) (now : String) :
    KeptBy w.rooms (User.handleStep w u now) := by
  unfold User.handleStep
  split
  · exact KeptBy.ok _ _ _ (RoomsKept.selfKept _)
  · split
    · rename_i h1 _ _ _
      have hk := Close_kept w.rooms h1 u now
      cases hC : User.Close ⟨w.rooms, h1⟩ u now with
      | error f => exact trivial
      | ok p => rw [hC] at hk; exact hk
    · simp only []
      split
      · exact KeptBy.ok _ _ _ (RoomsKept.selfKept _)
      · split
        · rename_i h1 _ _ _ _ cs _
          have hk := parseCommand_kept_mk w.rooms h1 u (String.mk cs) now
          cases hP : User.parseCommand ⟨w.rooms, h1⟩ u (String.mk cs) now with
          | error f => exact trivial
          | ok p => rw [hP] at hk; exact hk
        · exact KeptBy.ok _ _ _ (Broadcast_keeps_mk w.rooms _ _ _)

theorem SetName_keeps_mk (rs : GoMap Room) (hp : Heap) (u : Nat) (n now : String) :
    RoomsKept rs (User.SetName ⟨rs, hp⟩ u n now).1.rooms :=
  SetName_keeps ⟨rs, hp⟩ u n now

theorem preamble_keeps (rs : GoMap Room) (hp : Heap) (u : Nat) (now : String) :
    RoomsKept rs (User.preamble ⟨rs, hp⟩ u now).1.rooms := by
  unfold User.preamble
  split
  · exact RoomsKept.selfKept _
  · split
    · exact RoomsKept.selfKept _
    · exact SetName_keeps_mk rs _ u _ now

theorem setup_rooms (w : World) (u : Nat) : (User.setup w u).1.rooms = w.rooms := by
  unfold User.setup
  split <;> rfl

theorem NewUser_keeps (w : World) (u : Nat) (conn : Conn) (now : String) :
    RoomsKept w.rooms (NewUser w u conn now).rooms := by
  unfold NewUser
  simp only [setup_rooms]
  exact preamble_keeps w.rooms _ u now

theorem Event_keeps (w w1 : World) (ev : Event) (h : ev.apply w = .ok w1) :
    RoomsKept w.rooms w1.rooms := by
  cases ev with
  | connect u conn now =>
    simp only [Event.apply, Except.ok.injEq] at h
    rw [← h]; exact NewUser_keeps w u conn now
  | joinDefault u now =>
    simp only [Event.apply, Except.ok.injEq] at h
    rw [← h]; exact UserJoinRoom_keeps w u DefaultRoom now
  | turn u now =>
    have hk := handleStep_kept w u now
    simp only [Event.apply] at h
    cases hS : User.handleStep w u now with
    | error f => rw [hS] at h; cases h
    | ok p =>
      obtain ⟨w2, b⟩ := p
      rw [hS] at h hk
      simp only [Except.ok.injEq] at h
      rw [← h]
      exact hk

theorem runEvents_keeps (es : List Event) (w w1 : World) (h : runEvents w es = .ok w1) :
    RoomsKept w.rooms w1.rooms := by
  induction es generalizing w with
  | nil =>
    simp only [runEvents, Except.ok.injEq] at h
    rw [← h]; exact RoomsKept.selfKept _
  | cons ev rest ih =>
    simp only [runEvents] at h
    cases hE : ev.apply w with
    | error f => rw [hE] at h; cases h
    | ok w2 =>
      rw [hE] at h
      exact (Event_keeps w w2 ev hE).chainKept (ih w2 h)

theorem NewRoomManager_lobby (users : Heap) :
    ((NewRoomManager users).rooms.Load DefaultRoom).isSome = true := by
  simp [NewRoomManager, RoomManager.CreateRoom, GoMap.Load, GoMap.empty, lookupKey,
    GoMap.Store, storeKey]

/-- C17: after every finite sequence of session events (connections with
their naming, the join of the default room, turns of the session loops with
any line, command, room creation, room change, quit or end of stream), by any
sessions and in any interleaving, run from the state that `NewRoomManager`
builds, the default room `lobby` is still in the directory.  A run that ends
in a panic leaves no state; the states before the panic are those of its
shorter runs. -/
theorem lobby_always_exists (users : Heap) (es : List Event) (w : World)
    (h : runEvents (NewRoomManager users) es = .ok w) :
    RoomManager.RoomExists w DefaultRoom = true :=
  runEvents_keeps es _ w h DefaultRoom (NewRoomManager_lobby users)

/-- Witness for C17: alice connects, joins the lobby, creates and enters the
room `den`, and quits. -/
theorem lobby_always_exists_witness :
    ∃ w, runEvents (NewRoomManager noSessions)
      [.connect 1 (Conn.sound ["alice", "/room den", "y", "/quit"]) "t1", .joinDefault 1 "t2",
        .turn 1 "t3", .turn 1 "t4"] = .ok w ∧
      w.rooms.keys = ["lobby", "den"] ∧ RoomManager.RoomExists w DefaultRoom = true :=
  ⟨_, rfl, rfl, lobby_always_exists noSessions
    [.connect 1 (Conn.sound ["alice", "/room den", "y", "/quit"]) "t1", .joinDefault 1 "t2",
      .turn 1 "t3", .turn 1 "t4"] _ rfl⟩

/-! ## Order of observation -/

theorem BroadCast_two_parts (h : Heap) (r : Room) (m : Message) (fs : List Filter) :
    Room.BroadCast h r m fs = (Room.rangeUnlocked h (r.appendLocked m) m, r.appendLocked m) :=
  rfl

theorem sentTo_congr {h h1 : Heap} (a : SameIdentity h h1) (r : Room) (j : Nat) (m : Message) :
    sentTo h1 r j m = sentTo h r j m := by
  simp only [sentTo, a.CanSend, a.String]

theorem broadCastAll_spec (ms : List Message) (h : Heap) (r : Room) :
    (broadCastAll h r ms).2.msgs = r.msgs ++ ms ∧
    (broadCastAll h r ms).2.users = r.users ∧
    ∀ j, ((broadCastAll h r ms).1 j).outbox = (h j).outbox ++ ms.flatMap (sentTo h r j) := by
  induction ms generalizing h r with
  | nil => simp [broadCastAll]
  | cons m rest ih =>
    obtain ⟨i1, i2, i3⟩ := ih (Room.BroadCast h r m []).1 (Room.BroadCast h r m []).2
    refine ⟨?_, ?_, ?_⟩
    · rw [broadCastAll, i1]
      simp [Room.BroadCast]
    · rw [broadCastAll, i2]
      rfl
    · intro j
      have hs := BroadCast_sameIdentity h r m []
      have e : ∀ x, sentTo (Room.BroadCast h r m []).1 (Room.BroadCast h r m []).2 j x
          = sentTo h r j x := by
        intro x
        rw [sentTo_congr hs]
        rfl
      rw [broadCastAll, i3 j, BroadCast_apply]
      simp only [List.flatMap_cons, funext e]
      simp [User.withOutbox, sentTo]

/-- C18 (as amended): broadcasts into one room that do not overlap are
observed in the order of the history.  First part: a run of broadcasts, each
ended before the next begins and nothing in between, appends the messages to
the history in the order of the broadcasts and sends every session its copies
in that same order.  Second part: of two broadcasts of which the first has
ended before the second begins, whatever else was appended to the history
(`extra`) and sent to the sessions (`more`) in between and whatever became of
the members, the names and the ignore lists, the message of the first stands
before the message of the second in the history, and what the first sent to a
session stands before what the second sends to it. -/
theorem sequential_broadcasts_are_observed_in_history_order (h : Heap) (r : Room) :
    (∀ ms : List Message,
      (broadCastAll h r ms).2.msgs = r.msgs ++ ms ∧
      ∀ j, ((broadCastAll h r ms).1 j).outbox = (h j).outbox ++ ms.flatMap (sentTo h r j)) ∧
    (∀ (m1 m2 : Message) (h2 : Heap) (r2 : Room) (extra : List Message)
        (more : Nat → List String),
      r2.msgs = (Room.BroadCast h r m1 []).2.msgs ++ extra →
      (∀ j, (h2 j).outbox = ((Room.BroadCast h r m1 []).1 j).outbox ++ more j) →
      (Room.BroadCast h2 r2 m2 []).2.msgs = r.msgs ++ [m1] ++ extra ++ [m2] ∧
      ∀ j, ((Room.BroadCast h2 r2 m2 []).1 j).outbox =
        (h j).outbox ++ sentTo h r j m1 ++ more j ++ sentTo h2 r2 j m2) := by
  refine ⟨fun ms => ⟨(broadCastAll_spec ms h r).1, (broadCastAll_spec ms h r).2.2⟩, ?_⟩
  intro m1 m2 h2 r2 extra more hmsgs hout
  refine ⟨?_, fun j => ?_⟩
  · rw [BroadCast_room]
    simp only [hmsgs, BroadCast_room]
  · rw [BroadCast_apply h2 r2 m2 [] j]
    simp only [User.withOutbox, hout j, BroadCast_apply h r m1 [] j, sentTo]

/-- Witness for C18 (as amended): in the sample lobby alice says `one`, then
carol leaves the room, then alice says `two`; the history holds the three
messages in this order, and bob is sent them in this order. -/
theorem sequential_broadcasts_are_observed_in_history_order_witness :
    exLeft.2.msgs = (Room.BroadCast exHeap exRoom (NewMessage "one" (.session 1) "t1" []) []).2.msgs
      ++ [NewMessage "carol left." .server "t2" []] ∧
    (Room.BroadCast exLeft.1 exLeft.2 (NewMessage "two" (.session 1) "t3" []) []).2.msgs.map
      (fun m => m.Content) = ["one", "carol left.", "two"] ∧
    ((Room.BroadCast exLeft.1 exLeft.2 (NewMessage "two" (.session 1) "t3" []) []).1 2).outbox
      = ["t1 - alice: one", "t2 - server: carol left.", "t3 - alice: two"] := by
  have hw := (sequential_broadcasts_are_observed_in_history_order exHeap exRoom).2
    (NewMessage "one" (.session 1) "t1" []) (NewMessage "two" (.session 1) "t3" [])
    exLeft.1 exLeft.2 [NewMessage "carol left." .server "t2" []]
    (fun j => sentTo exSaid.1 { exSaid.2 with users := exSaid.2.users.Delete "carol" } j
      (NewMessage "carol left." .server "t2" []))
    rfl
    (fun j => by
      show ((Room.BroadCast _ _ _ []).1 j).outbox = _
      rw [BroadCast_apply]
      rfl)
  refine ⟨rfl, ?_, ?_⟩
  · rw [hw.1]; rfl
  · rw [hw.2 2]; rfl

/-- Counterexample to C18 as stated: in the sample lobby alice broadcasts `one`
and bob broadcasts `two` at the same time.  `Room.BroadCast` releases the lock
`msgsMu` after its append and iterates over the members outside it.  Alice's
append runs first, then bob's append and bob's iteration over the members, and
alice's iteration last: the history holds `one` before `two`, and carol is
sent `two` before `one`. -/
theorem overlapping_broadcasts_are_observed_out_of_order :
    (((exRoom.appendLocked (NewMessage "one" (.session 1) "t1" [])).appendLocked
        (NewMessage "two" (.session 2) "t2" [])).msgs.map (fun m => m.Content)
      = ["one", "two"]) ∧
    ((Room.rangeUnlocked
        (Room.rangeUnlocked exHeap
          ((exRoom.appendLocked (NewMessage "one" (.session 1) "t1" [])).appendLocked
            (NewMessage "two" (.session 2) "t2" []))
          (NewMessage "two" (.session 2) "t2" []))
        ((exRoom.appendLocked (NewMessage "one" (.session 1) "t1" [])).appendLocked
          (NewMessage "two" (.session 2) "t2" []))
        (NewMessage "one" (.session 1) "t1" []) 3).outbox
      = ["t2 - bob: two", "t1 - alice: one"]) := by
  constructor <;> rfl

/-- C20 (the code at the failing input): alice and bob connect and join the
lobby; bob issues `name rob`.  The member map of the lobby then holds his
session under the key `bob` while his name is `rob`.  After he issues
`room lobby` the member map holds his session under both keys, and the one
broadcast of alice's line `hi` sends him the line twice. -/
theorem rename_leaves_stale_member_key :
    (do let w ← runEvents (NewRoomManager noSessions)
          [.connect 1 (Conn.sound ["alice", "hi"]) "t1", .joinDefault 1 "t2",
            .connect 2 (Conn.sound ["bob", "/name rob", "/room lobby"]) "t3", .joinDefault 2 "t4",
            .turn 2 "t5"]
        pure ((w.rooms.Load "lobby").map (fun r => r.users.entries), (w.users 2).Name))
      = Except.ok (some [("alice", 1), ("bob", 2)], "rob") ∧
    (do let w ← runEvents (NewRoomManager noSessions)
          [.connect 1 (Conn.sound ["alice", "hi"]) "t1", .joinDefault 1 "t2",
            .connect 2 (Conn.sound ["bob", "/name rob", "/room lobby"]) "t3", .joinDefault 2 "t4",
            .turn 2 "t5", .turn 2 "t6", .turn 1 "t7"]
        pure ((w.rooms.Load "lobby").map (fun r => r.users.entries),
          (w.users 2).outbox.count "t7 - alice: hi"))
      = Except.ok (some [("alice", 1), ("bob", 2), ("rob", 2)], 2) := by
  constructor <;> rfl

end Hoot
